import Mathlib

set_option maxHeartbeats 1000000

/-!
Verification development for the proving-job broker
(source: proving_broker.ts, class ProvingBroker).

The broker state is embedded shallowly: the JS Map fields become
association lists keyed by job id (modelled as Nat), the per-class
priority queues become sorted lists, and every broker method becomes a
pure state-transformer.  Store (database) contents are carried inside
the state so that persistence effects are visible to the theorems.
-/

/-- ProvingRequestType from aztec circuit-types: the closed enumeration of
proof classes handled by the broker. -/
inductive ProvingRequestType where
  | PUBLIC_VM
  | TUBE_PROOF
  | PRIVATE_KERNEL_EMPTY
  | PRIVATE_BASE_ROLLUP
  | PUBLIC_BASE_ROLLUP
  | MERGE_ROLLUP
  | ROOT_ROLLUP
  | BLOCK_MERGE_ROLLUP
  | BLOCK_ROOT_ROLLUP
  | EMPTY_BLOCK_ROOT_ROLLUP
  | BASE_PARITY
  | ROOT_PARITY
deriving DecidableEq, Repr, Fintype

/-- V2ProvingJob: id (opaque, modelled as Nat), proof class, blockNumber
(the epoch priority key) and opaque inputs. -/
structure V2ProvingJob where
  id : Nat
  type : ProvingRequestType
  blockNumber : Nat
  inputs : String
deriving DecidableEq, Repr

/-- V2ProvingJobResult: either a success value or a stringified error. -/
inductive V2ProvingJobResult where
  | value (v : String)
  | error (e : String)
deriving DecidableEq, Repr

/-- V2ProvingJobStatus returned by getProvingJobStatus. -/
inductive V2ProvingJobStatus where
  | notFound
  | inQueue
  | inProgress
  | resolved (value : String)
  | rejected (error : String)
deriving DecidableEq, Repr

/-- InProgressMetadata: the lease record kept in the inProgress map. -/
structure InProgressMetadata where
  id : Nat
  startedAt : Int
  lastUpdatedAt : Int
deriving DecidableEq, Repr

/-- Lookup in an association list, mirroring JS Map.get. -/
def getEntry {α : Type} (k : Nat) : List (Nat × α) → Option α
  | [] => none
  | e :: rest => if e.1 = k then some e.2 else getEntry k rest

/-- Insert-or-replace in an association list, mirroring JS Map.set. -/
def setEntry {α : Type} (k : Nat) (v : α) : List (Nat × α) → List (Nat × α)
  | [] => [(k, v)]
  | e :: rest => if e.1 = k then (k, v) :: rest else e :: setEntry k v rest

/-- Key removal in an association list, mirroring JS Map.delete
(on maps with unique keys, removing every entry with the key agrees
with removing the single entry). -/
def delEntry {α : Type} (k : Nat) : List (Nat × α) → List (Nat × α)
  | [] => []
  | e :: rest => if e.1 = k then delEntry k rest else e :: delEntry k rest

/-- provingJobComparator from proving_broker.ts: orders jobs by
blockNumber, lower block number first. -/
def provingJobComparator (a b : V2ProvingJob) : Int :=
  if a.blockNumber < b.blockNumber then -1
  else if a.blockNumber > b.blockNumber then 1
  else 0

/-- Modelled from the spec: PriorityMemoryQueue (imported from
aztec foundation, not part of the extracted sources) is specified in
section 4.2 as a min-ordered queue keyed by (epoch ASC, insertion order
ASC).  put inserts the job after every queued job that does not compare
strictly greater, preserving FIFO order among equal keys. -/
def pqPut (job : V2ProvingJob) : List V2ProvingJob → List V2ProvingJob
  | [] => [job]
  | e :: rest => if provingJobComparator job e = -1 then job :: e :: rest else e :: pqPut job rest

/-- PROOF_TYPES_IN_PRIORITY_ORDER from proving_broker.ts, most preferred
first. -/
def PROOF_TYPES_IN_PRIORITY_ORDER : List ProvingRequestType :=
  [ .BLOCK_ROOT_ROLLUP
  , .BLOCK_MERGE_ROLLUP
  , .ROOT_ROLLUP
  , .MERGE_ROLLUP
  , .PUBLIC_BASE_ROLLUP
  , .PRIVATE_BASE_ROLLUP
  , .PUBLIC_VM
  , .TUBE_PROOF
  , .ROOT_PARITY
  , .BASE_PARITY
  , .EMPTY_BLOCK_ROOT_ROLLUP
  , .PRIVATE_KERNEL_EMPTY ]

/-- Array.prototype.indexOf on PROOF_TYPES_IN_PRIORITY_ORDER: index of
the proof type, or -1 when absent. -/
def indexOfPT (a : ProvingRequestType) : Int :=
  match PROOF_TYPES_IN_PRIORITY_ORDER.findIdx? (fun u => u = a) with
  | some i => (i : Int)
  | none => -1

/-- proofTypeComparator from proving_broker.ts: compares proof types by
their index in the priority list; types missing from the list are least
important. -/
def proofTypeComparator (a b : ProvingRequestType) : Int :=
  let indexOfA := indexOfPT a
  let indexOfB := indexOfPT b
  if indexOfA = indexOfB then 0
  else if indexOfA = -1 then 1
  else if indexOfB = -1 then -1
  else if indexOfA < indexOfB then -1
  else 1

/-- Stable insertion step of the sort applied to the allow list in
getProvingJob. -/
def insertPT (a : ProvingRequestType) : List ProvingRequestType → List ProvingRequestType
  | [] => [a]
  | b :: rest => if proofTypeComparator a b = -1 then a :: b :: rest else b :: insertPT a rest

/-- Array.prototype.sort with proofTypeComparator, modelled as a stable
insertion sort. -/
def sortProofTypes : List ProvingRequestType → List ProvingRequestType
  | [] => []
  | a :: rest => insertPT a (sortProofTypes rest)

/-- Every proof class; stands for
Object.values(ProvingRequestType).filter(x, typeof x is number), the
default allow list of getProvingJob. -/
def allProofTypes : List ProvingRequestType :=
  [ .PUBLIC_VM
  , .TUBE_PROOF
  , .PRIVATE_KERNEL_EMPTY
  , .PRIVATE_BASE_ROLLUP
  , .PUBLIC_BASE_ROLLUP
  , .MERGE_ROLLUP
  , .ROOT_ROLLUP
  , .BLOCK_MERGE_ROLLUP
  , .BLOCK_ROOT_ROLLUP
  , .EMPTY_BLOCK_ROOT_ROLLUP
  , .BASE_PARITY
  , .ROOT_PARITY ]

/-- The whole broker state: the per-class queues, the four in-memory
maps of ProvingBroker, and the durable store contents (modelled from
the spec interface: job records and terminal results by id). -/
structure BrokerState where
  queues : ProvingRequestType → List V2ProvingJob
  jobsCache : List (Nat × V2ProvingJob)
  resultsCache : List (Nat × V2ProvingJobResult)
  inProgress : List (Nat × InProgressMetadata)
  retries : List (Nat × Nat)
  dbJobs : List (Nat × V2ProvingJob)
  dbResults : List (Nat × V2ProvingJobResult)

/-- The state of a freshly constructed broker over an empty store. -/
def initialBroker : BrokerState :=
  { queues := fun _ => []
  , jobsCache := []
  , resultsCache := []
  , inProgress := []
  , retries := []
  , dbJobs := []
  , dbResults := [] }

/-- Number of queued jobs carrying the given id in one queue. -/
def countId (id : Nat) : List V2ProvingJob → Nat
  | [] => 0
  | j :: rest => (if j.id = id then 1 else 0) + countId id rest

/-- Number of queued jobs carrying the given id across all class
queues. -/
def totalQueued (id : Nat) (s : BrokerState) : Nat :=
  (allProofTypes.map (fun t => countId id (s.queues t))).sum

/-- enqueueJobInternal from proving_broker.ts: push the job onto the
queue of its own class. -/
def enqueueJobInternal (job : V2ProvingJob) (qs : ProvingRequestType → List V2ProvingJob) :
    ProvingRequestType → List V2ProvingJob :=
  fun t => if t = job.type then pqPut job (qs t) else qs t

/-- Outcome surfaced by enqueueProvingJob. -/
inductive EnqueueOutcome where
  | accepted
  | duplicateIdConflict
deriving DecidableEq, Repr

/-- enqueueProvingJob: on a cached id, byte-equal records succeed
idempotently and differing records fail (assert.deepStrictEqual);
otherwise persist, cache and queue the job. -/
def enqueueProvingJob (job : V2ProvingJob) (s : BrokerState) : EnqueueOutcome × BrokerState :=
  match getEntry job.id s.jobsCache with
  | some existing =>
    if job = existing then (.accepted, s) else (.duplicateIdConflict, s)
  | none =>
    (.accepted,
      { s with
        dbJobs := setEntry job.id job s.dbJobs
        jobsCache := setEntry job.id job s.jobsCache
        queues := enqueueJobInternal job s.queues })

/-- Outcome of a durable-store call. -/
inductive StoreOutcome where
  | ok
  | storeUnavailable
deriving DecidableEq, Repr

/-- removeAndCancelProvingJob: the store delete runs first; only when it
succeeds are the four in-memory maps updated.  The priority queues are
not touched.  storeOk models whether the awaited store call succeeds. -/
def removeAndCancelProvingJob (id : Nat) (storeOk : Bool) (s : BrokerState) :
    StoreOutcome × BrokerState :=
  if storeOk then
    (.ok,
      { s with
        dbJobs := delEntry id s.dbJobs
        dbResults := delEntry id s.dbResults
        jobsCache := delEntry id s.jobsCache
        resultsCache := delEntry id s.resultsCache
        inProgress := delEntry id s.inProgress
        retries := delEntry id s.retries })
  else (.storeUnavailable, s)

/-- getProvingJobStatus: results take precedence, then the job cache,
then the in-progress set decides between in-progress and in-queue. -/
def getProvingJobStatus (id : Nat) (s : BrokerState) : V2ProvingJobStatus :=
  match getEntry id s.resultsCache with
  | none =>
    match getEntry id s.jobsCache with
    | none => .notFound
    | some _ => if (getEntry id s.inProgress).isSome then .inProgress else .inQueue
  | some (.value v) => .resolved v
  | some (.error e) => .rejected e

/-- The class loop of getProvingJob: try each allowed class in sorted
order, pop the first non-empty queue and install a fresh lease. -/
def pickJob (now : Int) (s : BrokerState) : List ProvingRequestType → Option V2ProvingJob × BrokerState
  | [] => (none, s)
  | t :: rest =>
    match s.queues t with
    | [] => pickJob now s rest
    | job :: remaining =>
      (some job,
        { s with
          queues := fun u => if u = t then remaining else s.queues u
          inProgress := setEntry job.id { id := job.id, startedAt := now, lastUpdatedAt := now } s.inProgress })

/-- getProvingJob: an absent filter falls back to every proof class; a
present allow list is used as given (a present empty list is truthy in
the source, so it yields no classes). -/
def getProvingJob (filter : Option (List ProvingRequestType)) (now : Int) (s : BrokerState) :
    Option V2ProvingJob × BrokerState :=
  let allowedProofs := match filter with
    | some l => l
    | none => allProofTypes
  pickJob now s (sortProofTypes allowedProofs)

/-- reportProvingJobError: unknown ids are dropped; the lease is cleared
when present; a requested retry within budget re-queues without a store
write, otherwise the stringified error is persisted and cached. -/
def reportProvingJobError (maxRetries : Nat) (id : Nat) (err : String) (retry : Bool)
    (s : BrokerState) : BrokerState :=
  let info := getEntry id s.inProgress
  match getEntry id s.jobsCache with
  | none => s
  | some item =>
    let retried := (getEntry id s.retries).getD 0
    let s1 := if info.isSome then { s with inProgress := delEntry id s.inProgress } else s
    if retry = true ∧ retried + 1 < maxRetries then
      { s1 with
        retries := setEntry id (retried + 1) s1.retries
        queues := enqueueJobInternal item s1.queues }
    else
      { s1 with
        dbResults := setEntry id (.error err) s1.dbResults
        resultsCache := setEntry id (.error err) s1.resultsCache }

/-- reportProvingJobSuccess: unknown ids are dropped; the lease is
cleared when present; the value is persisted and cached
unconditionally, even when a result was already recorded. -/
def reportProvingJobSuccess (id : Nat) (value : String) (s : BrokerState) : BrokerState :=
  let info := getEntry id s.inProgress
  match getEntry id s.jobsCache with
  | none => s
  | some _ =>
    let s1 := if info.isSome then { s with inProgress := delEntry id s.inProgress } else s
    { s1 with
      dbResults := setEntry id (.value value) s1.dbResults
      resultsCache := setEntry id (.value value) s1.resultsCache }

/-- reportProvingJobProgress: a live lease gets its heartbeat bumped; a
missing lease with a filter present re-dispatches via getProvingJob;
otherwise nothing happens.  The outer Option models the optional filter
argument, the inner one its optional allowList field. -/
def reportProvingJobProgress (id : Nat) (filter : Option (Option (List ProvingRequestType)))
    (now : Int) (s : BrokerState) : Option V2ProvingJob × BrokerState :=
  match getEntry id s.inProgress with
  | some metadata =>
    (none, { s with inProgress := setEntry id { metadata with lastUpdatedAt := now } s.inProgress })
  | none =>
    match filter with
    | some f => getProvingJob f now s
    | none => (none, s)

/-- One step of the timeoutCheck loop: a lease whose job record is gone
is dropped; a lease whose heartbeat is stale is dropped and its job
re-queued; otherwise the state is unchanged. -/
def sweepEntry (jobTimeoutMs now : Int) (s : BrokerState) (e : Nat × InProgressMetadata) :
    BrokerState :=
  match getEntry e.1 s.jobsCache with
  | none => { s with inProgress := delEntry e.1 s.inProgress }
  | some item =>
    if jobTimeoutMs ≤ now - e.2.lastUpdatedAt then
      { s with
        inProgress := delEntry e.1 s.inProgress
        queues := enqueueJobInternal item s.queues }
    else s

/-- timeoutCheck from proving_broker.ts: sweep every lease present when
the sweeper fires. -/
def timeoutCheck (jobTimeoutMs now : Int) (s : BrokerState) : BrokerState :=
  s.inProgress.foldl (sweepEntry jobTimeoutMs now) s

/-- One step of the start loop: cache the job; a persisted result is
cached without re-queueing, a job without a result is re-queued. -/
def restoreEntry (s : BrokerState) (e : V2ProvingJob × Option V2ProvingJobResult) : BrokerState :=
  let s1 := { s with jobsCache := setEntry e.1.id e.1 s.jobsCache }
  match e.2 with
  | some r => { s1 with resultsCache := setEntry e.1.id r s1.resultsCache }
  | none => { s1 with queues := enqueueJobInternal e.1 s1.queues }

/-- start from proving_broker.ts, with the store enumeration
(database.allProvingJobs, modelled from the spec iterate_all interface)
passed in as the list of persisted job and optional result pairs. -/
def startBroker (entries : List (V2ProvingJob × Option V2ProvingJobResult)) (s : BrokerState) :
    BrokerState :=
  entries.foldl restoreEntry s

/-- Broker configuration: jobTimeoutMs and maxRetries, constructor
defaults 30000 and 3. -/
structure BrokerConfig where
  jobTimeoutMs : Int
  maxRetries : Nat

/-- The default configuration of the ProvingBroker constructor. -/
def defaultConfig : BrokerConfig :=
  { jobTimeoutMs := 30000, maxRetries := 3 }

/-- One external broker operation, with the wall-clock reading passed to
the operations that consult the time source. -/
inductive BrokerOp where
  | enqueueOp (job : V2ProvingJob)
  | cancelOp (id : Nat) (storeOk : Bool)
  | statusOp (id : Nat)
  | acquireOp (filter : Option (List ProvingRequestType)) (now : Int)
  | heartbeatOp (id : Nat) (filter : Option (Option (List ProvingRequestType))) (now : Int)
  | successOp (id : Nat) (value : String)
  | failureOp (id : Nat) (err : String) (retry : Bool)
  | sweepOp (now : Int)

/-- The state change performed by one broker operation. -/
def applyOp (cfg : BrokerConfig) : BrokerOp → BrokerState → BrokerState
  | .enqueueOp job, s => (enqueueProvingJob job s).2
  | .cancelOp id storeOk, s => (removeAndCancelProvingJob id storeOk s).2
  | .statusOp _, s => s
  | .acquireOp filter now, s => (getProvingJob filter now s).2
  | .heartbeatOp id filter now, s => (reportProvingJobProgress id filter now s).2
  | .successOp id v, s => reportProvingJobSuccess id v s
  | .failureOp id err retry, s => reportProvingJobError cfg.maxRetries id err retry s
  | .sweepOp now, s => timeoutCheck cfg.jobTimeoutMs now s

/-- Restriction on deliverable operations: cancellation only for ids not
sitting in a queue, and worker reports only for currently leased ids. -/
def guardOk (s : BrokerState) : BrokerOp → Bool
  | .cancelOp id _ => decide (totalQueued id s = 0)
  | .successOp id _ => (getEntry id s.inProgress).isSome
  | .failureOp id _ _ => (getEntry id s.inProgress).isSome
  | _ => true

/-- A trace is admissible when every operation satisfies the guard in
the state it executes in. -/
def traceOk (cfg : BrokerConfig) : BrokerState → List BrokerOp → Bool
  | _, [] => true
  | s, op :: rest => guardOk s op && traceOk cfg (applyOp cfg op s) rest

/-- Run a list of broker operations. -/
def runOps (cfg : BrokerConfig) : BrokerState → List BrokerOp → BrokerState
  | s, [] => s
  | s, op :: rest => runOps cfg (applyOp cfg op s) rest

/-- The class rank exactly as the claim states it: the fixed order
BLOCK_ROOT_ROLLUP, BLOCK_MERGE_ROLLUP, ROOT_ROLLUP, MERGE_ROLLUP,
PUBLIC_BASE_ROLLUP, PRIVATE_BASE_ROLLUP, PUBLIC_VM, TUBE_PROOF,
ROOT_PARITY, BASE_PARITY, EMPTY_BLOCK_ROOT_ROLLUP,
PRIVATE_KERNEL_EMPTY. -/
def claimRank : ProvingRequestType → Nat
  | .BLOCK_ROOT_ROLLUP => 0
  | .BLOCK_MERGE_ROLLUP => 1
  | .ROOT_ROLLUP => 2
  | .MERGE_ROLLUP => 3
  | .PUBLIC_BASE_ROLLUP => 4
  | .PRIVATE_BASE_ROLLUP => 5
  | .PUBLIC_VM => 6
  | .TUBE_PROOF => 7
  | .ROOT_PARITY => 8
  | .BASE_PARITY => 9
  | .EMPTY_BLOCK_ROOT_ROLLUP => 10
  | .PRIVATE_KERNEL_EMPTY => 11

/-- Every queued job entry carries the type of its own queue. -/
def QueuesTyped (s : BrokerState) : Prop :=
  ∀ t : ProvingRequestType, ∀ j ∈ s.queues t, j.type = t

instance (s : BrokerState) : Decidable (QueuesTyped s) :=
  inferInstanceAs (Decidable (∀ t : ProvingRequestType, ∀ j ∈ s.queues t, j.type = t))

/-- Every queue is ordered by non-decreasing block number. -/
def QueuesSorted (s : BrokerState) : Prop :=
  ∀ t : ProvingRequestType,
    (s.queues t).Pairwise (fun a b => a.blockNumber ≤ b.blockNumber)

instance (s : BrokerState) : Decidable (QueuesSorted s) := by
  unfold QueuesSorted
  infer_instance

/-- The allow list getProvingJob works from: the filter contents when
present, otherwise every proof class. -/
def allowedOf (filter : Option (List ProvingRequestType)) : List ProvingRequestType :=
  match filter with
  | some l => l
  | none => allProofTypes

/-- The state invariant maintained by guarded broker operations. -/
structure BrokerInv (s : BrokerState) : Prop where
  qOnce : ∀ id, totalQueued id s ≤ 1
  leaseNotQueued : ∀ id, (getEntry id s.inProgress).isSome → totalQueued id s = 0
  queuedHasJob : ∀ id, 0 < totalQueued id s → (getEntry id s.jobsCache).isSome
  leaseHasJob : ∀ id, (getEntry id s.inProgress).isSome → (getEntry id s.jobsCache).isSome
  leaseNoResult : ∀ id, (getEntry id s.inProgress).isSome → getEntry id s.resultsCache = none
  queuedNoResult : ∀ id, 0 < totalQueued id s → getEntry id s.resultsCache = none
  resultHasJob : ∀ id, (getEntry id s.resultsCache).isSome → (getEntry id s.jobsCache).isSome
  jobKeys : ∀ id j, getEntry id s.jobsCache = some j → j.id = id
  ipNodup : (s.inProgress.map Prod.fst).Nodup

/-- Key consistency of the job cache as a decidable list predicate. -/
def JobKeysOk (l : List (Nat × V2ProvingJob)) : Prop := ∀ e ∈ l, e.2.id = e.1

instance (l : List (Nat × V2ProvingJob)) : Decidable (JobKeysOk l) :=
  inferInstanceAs (Decidable (∀ e ∈ l, e.2.id = e.1))

/-! ### Association list lemmas -/

theorem getEntry_setEntry {α : Type} (k k' : Nat) (v : α) (l : List (Nat × α)) :
    getEntry k' (setEntry k v l) = if k = k' then some v else getEntry k' l := by
  induction l with
  | nil => simp [setEntry, getEntry]
  | cons e rest ih =>
    by_cases h2 : k = k'
    · subst h2
      by_cases h1 : e.1 = k <;> simp [setEntry, getEntry, h1, ih]
    · have h5 : ¬ k' = k := fun hh => h2 hh.symm
      by_cases h1 : e.1 = k
      · have h3 : ¬ e.1 = k' := by rw [h1]; exact h2
        simp [setEntry, getEntry, h1, h2, h3, h5, ih]
      · by_cases h4 : e.1 = k' <;> simp [setEntry, getEntry, h1, h2, h4, h5, ih]

theorem getEntry_delEntry {α : Type} (k k' : Nat) (l : List (Nat × α)) :
    getEntry k' (delEntry k l) = if k = k' then none else getEntry k' l := by
  induction l with
  | nil => simp [delEntry, getEntry]
  | cons e rest ih =>
    by_cases h2 : k = k'
    · subst h2
      by_cases h1 : e.1 = k <;> simp [delEntry, getEntry, h1, ih]
    · have h5 : ¬ k' = k := fun hh => h2 hh.symm
      by_cases h1 : e.1 = k
      · have h3 : ¬ e.1 = k' := by rw [h1]; exact h2
        simp [delEntry, getEntry, h1, h2, h3, h5, ih]
      · by_cases h4 : e.1 = k' <;> simp [delEntry, getEntry, h1, h2, h4, h5, ih]

theorem getEntry_isSome_of_mem {α : Type} {k : Nat} {v : α} {l : List (Nat × α)}
    (h : (k, v) ∈ l) : (getEntry k l).isSome := by
  induction l with
  | nil => simp at h
  | cons e rest ih =>
    by_cases h1 : e.1 = k
    · simp [getEntry, h1]
    · rcases List.mem_cons.mp h with h2 | h2
      · rw [← h2] at h1; simp at h1
      · simp [getEntry, h1, ih h2]

theorem mem_keys_setEntry {α : Type} (a k : Nat) (v : α) (l : List (Nat × α)) :
    a ∈ (setEntry k v l).map Prod.fst ↔ a = k ∨ a ∈ l.map Prod.fst := by
  induction l with
  | nil => simp [setEntry]
  | cons e rest ih =>
    by_cases h1 : e.1 = k
    · simp only [setEntry, if_pos h1, List.map_cons, List.mem_cons]
      rw [h1]
      tauto
    · simp only [setEntry, if_neg h1, List.map_cons, List.mem_cons, ih]
      tauto

theorem nodup_keys_setEntry {α : Type} (k : Nat) (v : α) (l : List (Nat × α))
    (h : (l.map Prod.fst).Nodup) : ((setEntry k v l).map Prod.fst).Nodup := by
  induction l with
  | nil => simp [setEntry]
  | cons e rest ih =>
    rcases List.nodup_cons.mp h with ⟨he, hrest⟩
    by_cases h1 : e.1 = k
    · subst h1
      simp only [setEntry, if_pos rfl, List.map_cons]
      exact List.nodup_cons.mpr ⟨he, hrest⟩
    · simp only [setEntry, if_neg h1, List.map_cons]
      refine List.nodup_cons.mpr ⟨?_, ih hrest⟩
      intro hmem
      rcases (mem_keys_setEntry e.1 k v rest).mp hmem with h2 | h2
      · exact h1 h2
      · exact he h2

theorem keys_delEntry_sublist {α : Type} (k : Nat) (l : List (Nat × α)) :
    ((delEntry k l).map Prod.fst).Sublist (l.map Prod.fst) := by
  induction l with
  | nil => simp [delEntry]
  | cons e rest ih =>
    by_cases h2 : e.1 = k
    · simp only [delEntry, if_pos h2, List.map_cons]
      exact ih.trans (List.sublist_cons_self _ _)
    · simp only [delEntry, if_neg h2, List.map_cons]
      exact ih.cons₂ e.1

theorem nodup_keys_delEntry {α : Type} (k : Nat) (l : List (Nat × α))
    (h : (l.map Prod.fst).Nodup) : ((delEntry k l).map Prod.fst).Nodup :=
  h.sublist (keys_delEntry_sublist k l)

/-! ### Priority queue lemmas -/

theorem provingJobComparator_neg (a b : V2ProvingJob) :
    provingJobComparator a b = -1 ↔ a.blockNumber < b.blockNumber := by
  unfold provingJobComparator
  split_ifs with h1 h2 <;> simp <;> omega

theorem mem_pqPut (b job : V2ProvingJob) (l : List V2ProvingJob) :
    b ∈ pqPut job l ↔ b = job ∨ b ∈ l := by
  induction l with
  | nil => simp [pqPut]
  | cons e rest ih =>
    by_cases h : provingJobComparator job e = -1 <;> simp [pqPut, h, ih] <;> tauto

theorem countId_pqPut (id : Nat) (job : V2ProvingJob) (l : List V2ProvingJob) :
    countId id (pqPut job l) = countId id l + (if job.id = id then 1 else 0) := by
  induction l with
  | nil => simp [pqPut, countId]
  | cons e rest ih =>
    by_cases h : provingJobComparator job e = -1 <;>
      simp [pqPut, h, countId, ih] <;> omega

theorem pairwise_pqPut (job : V2ProvingJob) (l : List V2ProvingJob)
    (h : l.Pairwise (fun a b => a.blockNumber ≤ b.blockNumber)) :
    (pqPut job l).Pairwise (fun a b => a.blockNumber ≤ b.blockNumber) := by
  induction l with
  | nil => simp [pqPut]
  | cons e rest ih =>
    rcases List.pairwise_cons.mp h with ⟨he, hrest⟩
    by_cases hc : provingJobComparator job e = -1
    · have hlt := (provingJobComparator_neg job e).mp hc
      rw [pqPut, if_pos hc]
      refine List.pairwise_cons.mpr ⟨?_, h⟩
      intro b hb
      rcases List.mem_cons.mp hb with rfl | hb
      · exact hlt.le
      · exact hlt.le.trans (he b hb)
    · have hge : e.blockNumber ≤ job.blockNumber := by
        rcases Nat.lt_or_ge job.blockNumber e.blockNumber with hlt | hge2
        · exact absurd ((provingJobComparator_neg job e).mpr hlt) hc
        · exact hge2
      rw [pqPut, if_neg hc]
      refine List.pairwise_cons.mpr ⟨?_, ih hrest⟩
      intro b hb
      rcases (mem_pqPut b job rest).mp hb with rfl | hb
      · exact hge
      · exact he b hb

theorem typed_pqPut (t : ProvingRequestType) (job : V2ProvingJob) (l : List V2ProvingJob)
    (hj : job.type = t) (h : ∀ b ∈ l, b.type = t) :
    ∀ b ∈ pqPut job l, b.type = t := by
  intro b hb
  rcases (mem_pqPut b job l).mp hb with rfl | hb
  · exact hj
  · exact h b hb

/-! ### Queue counting lemmas -/

theorem countId_le_totalQueued (id : Nat) (s : BrokerState) (t : ProvingRequestType) :
    countId id (s.queues t) ≤ totalQueued id s := by
  cases t <;> simp [totalQueued, allProofTypes] <;> omega

theorem totalQueued_put (id : Nat) (job : V2ProvingJob)
    (qs : ProvingRequestType → List V2ProvingJob) :
    (allProofTypes.map (fun t => countId id (enqueueJobInternal job qs t))).sum
      = (allProofTypes.map (fun t => countId id (qs t))).sum
        + (if job.id = id then 1 else 0) := by
  cases h : job.type <;> by_cases hid : job.id = id <;>
    simp [enqueueJobInternal, h, allProofTypes, countId_pqPut, hid] <;> omega

theorem totalQueued_pop (id : Nat) (t : ProvingRequestType) (job : V2ProvingJob)
    (remaining : List V2ProvingJob) (qs : ProvingRequestType → List V2ProvingJob)
    (hq : qs t = job :: remaining) :
    (allProofTypes.map (fun u => countId id (qs u))).sum
      = (allProofTypes.map (fun u => countId id (if u = t then remaining else qs u))).sum
        + (if job.id = id then 1 else 0) := by
  cases t <;> by_cases hid : job.id = id <;>
    simp [allProofTypes, hq, countId, hid] <;> omega

theorem totalQueued_eq_of_queues_eq {s s2 : BrokerState}
    (hq : s2.queues = s.queues) (id : Nat) : totalQueued id s2 = totalQueued id s := by
  simp [totalQueued, hq]

/-! ### Invariant preservation -/

theorem brokerInv_initial : BrokerInv initialBroker := by
  refine ⟨?_, ?_, ?_, ?_, ?_, ?_, ?_, ?_, ?_⟩ <;>
    simp [initialBroker, totalQueued, allProofTypes, countId, getEntry]

theorem brokerInv_delLease (id0 : Nat) {s : BrokerState} (h : BrokerInv s) :
    BrokerInv { s with inProgress := delEntry id0 s.inProgress } := by
  constructor
  · exact h.qOnce
  · intro id hip
    rw [show ({ s with inProgress := delEntry id0 s.inProgress } : BrokerState).inProgress
        = delEntry id0 s.inProgress from rfl, getEntry_delEntry] at hip
    by_cases hid : id0 = id
    · rw [if_pos hid] at hip; simp at hip
    · rw [if_neg hid] at hip; exact h.leaseNotQueued id hip
  · exact h.queuedHasJob
  · intro id hip
    rw [show ({ s with inProgress := delEntry id0 s.inProgress } : BrokerState).inProgress
        = delEntry id0 s.inProgress from rfl, getEntry_delEntry] at hip
    by_cases hid : id0 = id
    · rw [if_pos hid] at hip; simp at hip
    · rw [if_neg hid] at hip; exact h.leaseHasJob id hip
  · intro id hip
    rw [show ({ s with inProgress := delEntry id0 s.inProgress } : BrokerState).inProgress
        = delEntry id0 s.inProgress from rfl, getEntry_delEntry] at hip
    by_cases hid : id0 = id
    · rw [if_pos hid] at hip; simp at hip
    · rw [if_neg hid] at hip; exact h.leaseNoResult id hip
  · exact h.queuedNoResult
  · exact h.resultHasJob
  · exact h.jobKeys
  · exact nodup_keys_delEntry id0 s.inProgress h.ipNodup

theorem brokerInv_enqueue_fresh (job : V2ProvingJob) {s : BrokerState} (h : BrokerInv s)
    (hc : getEntry job.id s.jobsCache = none) :
    BrokerInv
      { s with
        dbJobs := setEntry job.id job s.dbJobs
        jobsCache := setEntry job.id job s.jobsCache
        queues := enqueueJobInternal job s.queues } := by
  have hTQ : ∀ id,
      totalQueued id
        { s with
          dbJobs := setEntry job.id job s.dbJobs
          jobsCache := setEntry job.id job s.jobsCache
          queues := enqueueJobInternal job s.queues }
      = totalQueued id s + (if job.id = id then 1 else 0) :=
    fun id => totalQueued_put id job s.queues
  have hzero : totalQueued job.id s = 0 := by
    by_contra hne
    have := h.queuedHasJob job.id (Nat.pos_of_ne_zero hne)
    rw [hc] at this
    simp at this
  constructor
  · intro id
    rw [hTQ]
    by_cases hid : job.id = id
    · rw [if_pos hid, ← hid, hzero]
    · rw [if_neg hid]
      have := h.qOnce id
      omega
  · intro id hip
    rw [hTQ]
    by_cases hid : job.id = id
    · exfalso
      have hj := h.leaseHasJob id hip
      rw [← hid, hc] at hj
      simp at hj
    · rw [if_neg hid, h.leaseNotQueued id hip]
  · intro id hpos
    rw [hTQ] at hpos
    show (getEntry id (setEntry job.id job s.jobsCache)).isSome
    rw [getEntry_setEntry]
    by_cases hid : job.id = id
    · rw [if_pos hid]; rfl
    · rw [if_neg hid]
      rw [if_neg hid] at hpos
      exact h.queuedHasJob id (by omega)
  · intro id hip
    show (getEntry id (setEntry job.id job s.jobsCache)).isSome
    rw [getEntry_setEntry]
    by_cases hid : job.id = id
    · rw [if_pos hid]; rfl
    · rw [if_neg hid]; exact h.leaseHasJob id hip
  · intro id hip
    exact h.leaseNoResult id hip
  · intro id hpos
    rw [hTQ] at hpos
    by_cases hid : job.id = id
    · show getEntry id s.resultsCache = none
      cases hres : getEntry id s.resultsCache with
      | none => rfl
      | some r =>
        exfalso
        have hj := h.resultHasJob id (by rw [hres]; rfl)
        rw [← hid, hc] at hj
        simp at hj
    · rw [if_neg hid] at hpos
      exact h.queuedNoResult id (by omega)
  · intro id hres
    show (getEntry id (setEntry job.id job s.jobsCache)).isSome
    rw [getEntry_setEntry]
    by_cases hid : job.id = id
    · rw [if_pos hid]; rfl
    · rw [if_neg hid]; exact h.resultHasJob id hres
  · intro id j hj2
    rw [show ({ s with
          dbJobs := setEntry job.id job s.dbJobs
          jobsCache := setEntry job.id job s.jobsCache
          queues := enqueueJobInternal job s.queues } : BrokerState).jobsCache
        = setEntry job.id job s.jobsCache from rfl, getEntry_setEntry] at hj2
    by_cases hid : job.id = id
    · rw [if_pos hid] at hj2
      have : j = job := by injection hj2 with hh; exact hh.symm
      rw [this, hid]
    · rw [if_neg hid] at hj2
      exact h.jobKeys id j hj2
  · exact h.ipNodup

theorem brokerInv_enqueueProvingJob (job : V2ProvingJob) {s : BrokerState} (h : BrokerInv s) :
    BrokerInv (enqueueProvingJob job s).2 := by
  unfold enqueueProvingJob
  cases hc : getEntry job.id s.jobsCache with
  | some existing =>
    change BrokerInv (if job = existing then
        ((EnqueueOutcome.accepted, s) : EnqueueOutcome × BrokerState)
      else (EnqueueOutcome.duplicateIdConflict, s)).2
    split_ifs <;> exact h
  | none => exact brokerInv_enqueue_fresh job h hc

theorem brokerInv_requeue (id0 : Nat) (item : V2ProvingJob) (rts : List (Nat × Nat))
    {s : BrokerState} (h : BrokerInv s)
    (hitem : getEntry id0 s.jobsCache = some item)
    (hlease : (getEntry id0 s.inProgress).isSome) :
    BrokerInv
      { s with
        inProgress := delEntry id0 s.inProgress
        retries := rts
        queues := enqueueJobInternal item s.queues } := by
  have hkey : item.id = id0 := h.jobKeys id0 item hitem
  have hzero : totalQueued id0 s = 0 := h.leaseNotQueued id0 hlease
  have hTQ : ∀ id,
      totalQueued id
        { s with
          inProgress := delEntry id0 s.inProgress
          retries := rts
          queues := enqueueJobInternal item s.queues }
      = totalQueued id s + (if item.id = id then 1 else 0) :=
    fun id => totalQueued_put id item s.queues
  constructor
  · intro id
    rw [hTQ]
    by_cases hid : item.id = id
    · have hid0 : id = id0 := hid.symm.trans hkey
      rw [if_pos hid, hid0, hzero]
    · rw [if_neg hid]
      have := h.qOnce id
      omega
  · intro id hip
    rw [show ({ s with
          inProgress := delEntry id0 s.inProgress
          retries := rts
          queues := enqueueJobInternal item s.queues } : BrokerState).inProgress
        = delEntry id0 s.inProgress from rfl, getEntry_delEntry] at hip
    by_cases hid : id0 = id
    · rw [if_pos hid] at hip; simp at hip
    · rw [if_neg hid] at hip
      rw [hTQ, h.leaseNotQueued id hip, if_neg]
      intro hh
      exact hid (hkey.symm.trans hh)
  · intro id hpos
    rw [hTQ] at hpos
    by_cases hid : item.id = id
    · have hid0 : id = id0 := hid.symm.trans hkey
      show (getEntry id s.jobsCache).isSome
      rw [hid0, hitem]; rfl
    · rw [if_neg hid] at hpos
      exact h.queuedHasJob id (by omega)
  · intro id hip
    rw [show ({ s with
          inProgress := delEntry id0 s.inProgress
          retries := rts
          queues := enqueueJobInternal item s.queues } : BrokerState).inProgress
        = delEntry id0 s.inProgress from rfl, getEntry_delEntry] at hip
    by_cases hid : id0 = id
    · rw [if_pos hid] at hip; simp at hip
    · rw [if_neg hid] at hip; exact h.leaseHasJob id hip
  · intro id hip
    rw [show ({ s with
          inProgress := delEntry id0 s.inProgress
          retries := rts
          queues := enqueueJobInternal item s.queues } : BrokerState).inProgress
        = delEntry id0 s.inProgress from rfl, getEntry_delEntry] at hip
    by_cases hid : id0 = id
    · rw [if_pos hid] at hip; simp at hip
    · rw [if_neg hid] at hip; exact h.leaseNoResult id hip
  · intro id hpos
    rw [hTQ] at hpos
    by_cases hid : item.id = id
    · have hid0 : id = id0 := hid.symm.trans hkey
      show getEntry id s.resultsCache = none
      rw [hid0]
      exact h.leaseNoResult id0 hlease
    · rw [if_neg hid] at hpos
      exact h.queuedNoResult id (by omega)
  · exact h.resultHasJob
  · exact h.jobKeys
  · exact nodup_keys_delEntry id0 s.inProgress h.ipNodup

theorem brokerInv_settle (id0 : Nat) (r : V2ProvingJobResult)
    (db : List (Nat × V2ProvingJobResult)) {s : BrokerState} (h : BrokerInv s)
    (hlease : (getEntry id0 s.inProgress).isSome) :
    BrokerInv
      { s with
        inProgress := delEntry id0 s.inProgress
        dbResults := db
        resultsCache := setEntry id0 r s.resultsCache } := by
  constructor
  · exact h.qOnce
  · intro id hip
    rw [show ({ s with
          inProgress := delEntry id0 s.inProgress
          dbResults := db
          resultsCache := setEntry id0 r s.resultsCache } : BrokerState).inProgress
        = delEntry id0 s.inProgress from rfl, getEntry_delEntry] at hip
    by_cases hid : id0 = id
    · rw [if_pos hid] at hip; simp at hip
    · rw [if_neg hid] at hip; exact h.leaseNotQueued id hip
  · exact h.queuedHasJob
  · intro id hip
    rw [show ({ s with
          inProgress := delEntry id0 s.inProgress
          dbResults := db
          resultsCache := setEntry id0 r s.resultsCache } : BrokerState).inProgress
        = delEntry id0 s.inProgress from rfl, getEntry_delEntry] at hip
    by_cases hid : id0 = id
    · rw [if_pos hid] at hip; simp at hip
    · rw [if_neg hid] at hip; exact h.leaseHasJob id hip
  · intro id hip
    rw [show ({ s with
          inProgress := delEntry id0 s.inProgress
          dbResults := db
          resultsCache := setEntry id0 r s.resultsCache } : BrokerState).inProgress
        = delEntry id0 s.inProgress from rfl, getEntry_delEntry] at hip
    by_cases hid : id0 = id
    · rw [if_pos hid] at hip; simp at hip
    · rw [if_neg hid] at hip
      show getEntry id (setEntry id0 r s.resultsCache) = none
      rw [getEntry_setEntry, if_neg hid]
      exact h.leaseNoResult id hip
  · intro id hpos
    show getEntry id (setEntry id0 r s.resultsCache) = none
    rw [getEntry_setEntry]
    by_cases hid : id0 = id
    · exfalso
      have hpos2 : 0 < totalQueued id s := hpos
      have : totalQueued id s = 0 := by rw [← hid]; exact h.leaseNotQueued id0 hlease
      omega
    · rw [if_neg hid]
      exact h.queuedNoResult id hpos
  · intro id hres
    rw [show ({ s with
          inProgress := delEntry id0 s.inProgress
          dbResults := db
          resultsCache := setEntry id0 r s.resultsCache } : BrokerState).resultsCache
        = setEntry id0 r s.resultsCache from rfl, getEntry_setEntry] at hres
    by_cases hid : id0 = id
    · show (getEntry id s.jobsCache).isSome
      rw [← hid]
      exact h.leaseHasJob id0 hlease
    · rw [if_neg hid] at hres
      exact h.resultHasJob id hres
  · exact h.jobKeys
  · exact nodup_keys_delEntry id0 s.inProgress h.ipNodup

theorem brokerInv_cancel (id0 : Nat) (storeOk : Bool) {s : BrokerState} (h : BrokerInv s)
    (hguard : totalQueued id0 s = 0) :
    BrokerInv (removeAndCancelProvingJob id0 storeOk s).2 := by
  unfold removeAndCancelProvingJob
  by_cases hok : storeOk = true
  · rw [if_pos hok]
    constructor
    · exact h.qOnce
    · intro id hip
      rw [show (getEntry id (delEntry id0 s.inProgress)).isSome
          = (getEntry id (delEntry id0 s.inProgress)).isSome from rfl] at hip
      rw [getEntry_delEntry] at hip
      by_cases hid : id0 = id
      · rw [if_pos hid] at hip; simp at hip
      · rw [if_neg hid] at hip; exact h.leaseNotQueued id hip
    · intro id hpos
      show (getEntry id (delEntry id0 s.jobsCache)).isSome
      rw [getEntry_delEntry]
      by_cases hid : id0 = id
      · exfalso
        have hpos2 : 0 < totalQueued id s := hpos
        rw [← hid] at hpos2
        omega
      · rw [if_neg hid]; exact h.queuedHasJob id hpos
    · intro id hip
      rw [show ((⟨s.queues, delEntry id0 s.jobsCache, delEntry id0 s.resultsCache,
            delEntry id0 s.inProgress, delEntry id0 s.retries, delEntry id0 s.dbJobs,
            delEntry id0 s.dbResults⟩ : BrokerState)).inProgress
          = delEntry id0 s.inProgress from rfl, getEntry_delEntry] at hip
      show (getEntry id (delEntry id0 s.jobsCache)).isSome
      rw [getEntry_delEntry]
      by_cases hid : id0 = id
      · rw [if_pos hid] at hip; simp at hip
      · rw [if_neg hid] at hip
        rw [if_neg hid]
        exact h.leaseHasJob id hip
    · intro id hip
      rw [show ((⟨s.queues, delEntry id0 s.jobsCache, delEntry id0 s.resultsCache,
            delEntry id0 s.inProgress, delEntry id0 s.retries, delEntry id0 s.dbJobs,
            delEntry id0 s.dbResults⟩ : BrokerState)).inProgress
          = delEntry id0 s.inProgress from rfl, getEntry_delEntry] at hip
      show getEntry id (delEntry id0 s.resultsCache) = none
      rw [getEntry_delEntry]
      by_cases hid : id0 = id
      · rw [if_pos hid] at hip; simp at hip
      · rw [if_neg hid] at hip
        rw [if_neg hid]
        exact h.leaseNoResult id hip
    · intro id hpos
      show getEntry id (delEntry id0 s.resultsCache) = none
      rw [getEntry_delEntry]
      by_cases hid : id0 = id
      · rw [if_pos hid]
      · rw [if_neg hid]; exact h.queuedNoResult id hpos
    · intro id hres
      rw [show ((⟨s.queues, delEntry id0 s.jobsCache, delEntry id0 s.resultsCache,
            delEntry id0 s.inProgress, delEntry id0 s.retries, delEntry id0 s.dbJobs,
            delEntry id0 s.dbResults⟩ : BrokerState)).resultsCache
          = delEntry id0 s.resultsCache from rfl, getEntry_delEntry] at hres
      show (getEntry id (delEntry id0 s.jobsCache)).isSome
      rw [getEntry_delEntry]
      by_cases hid : id0 = id
      · rw [if_pos hid] at hres; simp at hres
      · rw [if_neg hid] at hres
        rw [if_neg hid]
        exact h.resultHasJob id hres
    · intro id j hj2
      rw [show ((⟨s.queues, delEntry id0 s.jobsCache, delEntry id0 s.resultsCache,
            delEntry id0 s.inProgress, delEntry id0 s.retries, delEntry id0 s.dbJobs,
            delEntry id0 s.dbResults⟩ : BrokerState)).jobsCache
          = delEntry id0 s.jobsCache from rfl, getEntry_delEntry] at hj2
      by_cases hid : id0 = id
      · rw [if_pos hid] at hj2; simp at hj2
      · rw [if_neg hid] at hj2
        exact h.jobKeys id j hj2
    · exact nodup_keys_delEntry id0 s.inProgress h.ipNodup
  · rw [if_neg hok]
    exact h

theorem pickJob_cases (now : Int) (s : BrokerState) (l : List ProvingRequestType) :
    pickJob now s l = (none, s) ∨
    ∃ t job remaining, t ∈ l ∧ s.queues t = job :: remaining ∧
      pickJob now s l = (some job,
        { s with
          queues := fun u => if u = t then remaining else s.queues u
          inProgress := setEntry job.id
            { id := job.id, startedAt := now, lastUpdatedAt := now } s.inProgress }) := by
  induction l with
  | nil => left; rfl
  | cons t rest ih =>
    cases hq : s.queues t with
    | nil =>
      have hstep : pickJob now s (t :: rest) = pickJob now s rest := by
        simp [pickJob, hq]
      rcases ih with h | ⟨t2, job, remaining, ht2, hq2, h⟩
      · left; rw [hstep, h]
      · right
        exact ⟨t2, job, remaining, List.mem_cons_of_mem t ht2, hq2, by rw [hstep, h]⟩
    | cons job remaining =>
      right
      refine ⟨t, job, remaining, List.mem_cons_self t rest, hq, ?_⟩
      simp [pickJob, hq]

theorem brokerInv_popLease (t : ProvingRequestType) (job : V2ProvingJob)
    (remaining : List V2ProvingJob) (md : InProgressMetadata) {s : BrokerState}
    (h : BrokerInv s) (hq : s.queues t = job :: remaining) :
    BrokerInv
      { s with
        queues := fun u => if u = t then remaining else s.queues u
        inProgress := setEntry job.id md s.inProgress } := by
  have hcount : 0 < countId job.id (s.queues t) := by
    rw [hq]; simp [countId]
  have hpos : 0 < totalQueued job.id s :=
    lt_of_lt_of_le hcount (countId_le_totalQueued job.id s t)
  have hjob : (getEntry job.id s.jobsCache).isSome := h.queuedHasJob job.id hpos
  have hnores : getEntry job.id s.resultsCache = none := h.queuedNoResult job.id hpos
  have hTQ : ∀ id,
      totalQueued id s
      = totalQueued id
          { s with
            queues := fun u => if u = t then remaining else s.queues u
            inProgress := setEntry job.id md s.inProgress }
        + (if job.id = id then 1 else 0) :=
    fun id => totalQueued_pop id t job remaining s.queues hq
  constructor
  · intro id
    have h1 := h.qOnce id
    have h2 := hTQ id
    omega
  · intro id hip
    rw [show ({ s with
          queues := fun u => if u = t then remaining else s.queues u
          inProgress := setEntry job.id md s.inProgress } : BrokerState).inProgress
        = setEntry job.id md s.inProgress from rfl, getEntry_setEntry] at hip
    by_cases hid : job.id = id
    · have h1 := h.qOnce id
      have h2 := hTQ id
      rw [if_pos hid] at h2
      omega
    · rw [if_neg hid] at hip
      have h1 := h.leaseNotQueued id hip
      have h2 := hTQ id
      rw [if_neg hid] at h2
      omega
  · intro id hpos2
    have h2 := hTQ id
    show (getEntry id s.jobsCache).isSome
    exact h.queuedHasJob id (by omega)
  · intro id hip
    rw [show ({ s with
          queues := fun u => if u = t then remaining else s.queues u
          inProgress := setEntry job.id md s.inProgress } : BrokerState).inProgress
        = setEntry job.id md s.inProgress from rfl, getEntry_setEntry] at hip
    show (getEntry id s.jobsCache).isSome
    by_cases hid : job.id = id
    · rw [← hid]; exact hjob
    · rw [if_neg hid] at hip
      exact h.leaseHasJob id hip
  · intro id hip
    rw [show ({ s with
          queues := fun u => if u = t then remaining else s.queues u
          inProgress := setEntry job.id md s.inProgress } : BrokerState).inProgress
        = setEntry job.id md s.inProgress from rfl, getEntry_setEntry] at hip
    show getEntry id s.resultsCache = none
    by_cases hid : job.id = id
    · rw [← hid]; exact hnores
    · rw [if_neg hid] at hip
      exact h.leaseNoResult id hip
  · intro id hpos2
    have h2 := hTQ id
    show getEntry id s.resultsCache = none
    exact h.queuedNoResult id (by omega)
  · intro id hres
    exact h.resultHasJob id hres
  · exact h.jobKeys
  · exact nodup_keys_setEntry job.id md s.inProgress h.ipNodup

theorem brokerInv_pickJob (now : Int) (l : List ProvingRequestType) {s : BrokerState}
    (h : BrokerInv s) : BrokerInv (pickJob now s l).2 := by
  rcases pickJob_cases now s l with hcase | ⟨t, job, remaining, ht, hq, hcase⟩
  · rw [hcase]; exact h
  · rw [hcase]
    exact brokerInv_popLease t job remaining _ h hq

theorem brokerInv_getProvingJob (filter : Option (List ProvingRequestType)) (now : Int)
    {s : BrokerState} (h : BrokerInv s) : BrokerInv (getProvingJob filter now s).2 :=
  brokerInv_pickJob now _ h

theorem brokerInv_touchLease (id0 : Nat) (md : InProgressMetadata) {s : BrokerState}
    (h : BrokerInv s) (hlease : (getEntry id0 s.inProgress).isSome) :
    BrokerInv { s with inProgress := setEntry id0 md s.inProgress } := by
  constructor
  · exact h.qOnce
  · intro id2 hip
    rw [show ({ s with inProgress := setEntry id0 md s.inProgress } : BrokerState).inProgress
        = setEntry id0 md s.inProgress from rfl, getEntry_setEntry] at hip
    by_cases hid : id0 = id2
    · rw [← hid]; exact h.leaseNotQueued id0 hlease
    · rw [if_neg hid] at hip
      exact h.leaseNotQueued id2 hip
  · exact h.queuedHasJob
  · intro id2 hip
    rw [show ({ s with inProgress := setEntry id0 md s.inProgress } : BrokerState).inProgress
        = setEntry id0 md s.inProgress from rfl, getEntry_setEntry] at hip
    by_cases hid : id0 = id2
    · rw [← hid]; exact h.leaseHasJob id0 hlease
    · rw [if_neg hid] at hip
      exact h.leaseHasJob id2 hip
  · intro id2 hip
    rw [show ({ s with inProgress := setEntry id0 md s.inProgress } : BrokerState).inProgress
        = setEntry id0 md s.inProgress from rfl, getEntry_setEntry] at hip
    by_cases hid : id0 = id2
    · rw [← hid]; exact h.leaseNoResult id0 hlease
    · rw [if_neg hid] at hip
      exact h.leaseNoResult id2 hip
  · exact h.queuedNoResult
  · exact h.resultHasJob
  · exact h.jobKeys
  · exact nodup_keys_setEntry id0 md s.inProgress h.ipNodup

theorem brokerInv_progress (id : Nat) (filter : Option (Option (List ProvingRequestType)))
    (now : Int) {s : BrokerState} (h : BrokerInv s) :
    BrokerInv (reportProvingJobProgress id filter now s).2 := by
  unfold reportProvingJobProgress
  cases hm : getEntry id s.inProgress with
  | some md =>
    have hm2 : (getEntry id s.inProgress).isSome := by rw [hm]; rfl
    exact brokerInv_touchLease id { md with lastUpdatedAt := now } h hm2
  | none =>
    cases filter with
    | some f => exact brokerInv_getProvingJob f now h
    | none => exact h

theorem brokerInv_reportSuccess (id : Nat) (v : String) {s : BrokerState} (h : BrokerInv s)
    (hlease : (getEntry id s.inProgress).isSome) :
    BrokerInv (reportProvingJobSuccess id v s) := by
  obtain ⟨item, hitem⟩ := Option.isSome_iff_exists.mp (h.leaseHasJob id hlease)
  unfold reportProvingJobSuccess
  rw [hitem]
  simp only [hlease, if_true]
  exact brokerInv_settle id (.value v) _ h hlease

theorem brokerInv_reportError (mr : Nat) (id : Nat) (err : String) (retry : Bool)
    {s : BrokerState} (h : BrokerInv s) (hlease : (getEntry id s.inProgress).isSome) :
    BrokerInv (reportProvingJobError mr id err retry s) := by
  obtain ⟨item, hitem⟩ := Option.isSome_iff_exists.mp (h.leaseHasJob id hlease)
  unfold reportProvingJobError
  rw [hitem]
  simp only [hlease, if_true]
  by_cases hcond : retry = true ∧ (getEntry id s.retries).getD 0 + 1 < mr
  · rw [if_pos hcond]
    exact brokerInv_requeue id item _ h hitem hlease
  · rw [if_neg hcond]
    exact brokerInv_settle id (.error err) _ h hlease

theorem brokerInv_sweepEntry (tmo now : Int) (e : Nat × InProgressMetadata) {s : BrokerState}
    (h : BrokerInv s) (hlease : (getEntry e.1 s.inProgress).isSome) :
    BrokerInv (sweepEntry tmo now s e) := by
  unfold sweepEntry
  cases hjc : getEntry e.1 s.jobsCache with
  | none => exact brokerInv_delLease e.1 h
  | some item =>
    show BrokerInv (if tmo ≤ now - e.2.lastUpdatedAt then
        ({ s with
           inProgress := delEntry e.1 s.inProgress
           queues := enqueueJobInternal item s.queues } : BrokerState)
      else s)
    by_cases hstale : tmo ≤ now - e.2.lastUpdatedAt
    · rw [if_pos hstale]
      exact brokerInv_requeue e.1 item _ h hjc hlease
    · rw [if_neg hstale]
      exact h

theorem sweepEntry_lease_mono (tmo now : Int) (e : Nat × InProgressMetadata) (id2 : Nat)
    (s : BrokerState) (hne : e.1 ≠ id2)
    (hip : (getEntry id2 s.inProgress).isSome) :
    (getEntry id2 (sweepEntry tmo now s e).inProgress).isSome := by
  unfold sweepEntry
  cases hjc : getEntry e.1 s.jobsCache with
  | none =>
    show (getEntry id2 (delEntry e.1 s.inProgress)).isSome
    rw [getEntry_delEntry, if_neg hne]
    exact hip
  | some item =>
    show (getEntry id2 (if tmo ≤ now - e.2.lastUpdatedAt then
        ({ s with
           inProgress := delEntry e.1 s.inProgress
           queues := enqueueJobInternal item s.queues } : BrokerState)
      else s).inProgress).isSome
    by_cases hstale : tmo ≤ now - e.2.lastUpdatedAt
    · rw [if_pos hstale]
      show (getEntry id2 (delEntry e.1 s.inProgress)).isSome
      rw [getEntry_delEntry, if_neg hne]
      exact hip
    · rw [if_neg hstale]
      exact hip

theorem brokerInv_sweepFold (tmo now : Int) (es : List (Nat × InProgressMetadata)) :
    ∀ s : BrokerState, BrokerInv s →
      (∀ e2 ∈ es, (getEntry e2.1 s.inProgress).isSome) →
      (es.map Prod.fst).Nodup →
      BrokerInv (es.foldl (sweepEntry tmo now) s) := by
  induction es with
  | nil => intro s h _ _; exact h
  | cons e rest ih =>
    intro s h hle hnd
    rw [List.map_cons, List.nodup_cons] at hnd
    rw [List.foldl_cons]
    refine ih (sweepEntry tmo now s e) ?_ ?_ hnd.2
    · exact brokerInv_sweepEntry tmo now e h (hle e (List.mem_cons_self e rest))
    · intro e2 he2
      have hne : e.1 ≠ e2.1 := by
        intro hh
        exact hnd.1 (hh ▸ List.mem_map_of_mem Prod.fst he2)
      exact sweepEntry_lease_mono tmo now e e2.1 s hne (hle e2 (List.mem_cons_of_mem e he2))

theorem brokerInv_timeoutCheck (tmo now : Int) {s : BrokerState} (h : BrokerInv s) :
    BrokerInv (timeoutCheck tmo now s) := by
  refine brokerInv_sweepFold tmo now s.inProgress s h ?_ h.ipNodup
  intro e2 he2
  have he3 : (e2.1, e2.2) ∈ s.inProgress := by rw [Prod.mk.eta]; exact he2
  exact getEntry_isSome_of_mem he3

theorem brokerInv_applyOp (cfg : BrokerConfig) (op : BrokerOp) {s : BrokerState}
    (h : BrokerInv s) (hg : guardOk s op = true) : BrokerInv (applyOp cfg op s) := by
  cases op with
  | enqueueOp job => exact brokerInv_enqueueProvingJob job h
  | cancelOp id storeOk =>
    refine brokerInv_cancel id storeOk h ?_
    simpa [guardOk] using hg
  | statusOp id => exact h
  | acquireOp filter now => exact brokerInv_getProvingJob filter now h
  | heartbeatOp id filter now => exact brokerInv_progress id filter now h
  | successOp id v =>
    refine brokerInv_reportSuccess id v h ?_
    simpa [guardOk] using hg
  | failureOp id err retry =>
    refine brokerInv_reportError cfg.maxRetries id err retry h ?_
    simpa [guardOk] using hg
  | sweepOp now => exact brokerInv_timeoutCheck cfg.jobTimeoutMs now h

theorem brokerInv_runOps (cfg : BrokerConfig) (ops : List BrokerOp) :
    ∀ s : BrokerState, BrokerInv s → traceOk cfg s ops = true →
      BrokerInv (runOps cfg s ops) := by
  induction ops with
  | nil => intro s h _; exact h
  | cons op rest ih =>
    intro s h ht
    rw [show traceOk cfg s (op :: rest)
        = (guardOk s op && traceOk cfg (applyOp cfg op s) rest) from rfl,
      Bool.and_eq_true] at ht
    exact ih (applyOp cfg op s) (brokerInv_applyOp cfg op h ht.1) ht.2

/-! ### Sweep fold support -/

theorem countId_enqueueJobInternal_ne (id : Nat) (job : V2ProvingJob)
    (qs : ProvingRequestType → List V2ProvingJob) (t : ProvingRequestType)
    (hne : job.id ≠ id) :
    countId id (enqueueJobInternal job qs t) = countId id (qs t) := by
  unfold enqueueJobInternal
  by_cases ht : t = job.type
  · rw [if_pos ht, countId_pqPut, if_neg hne, Nat.add_zero]
  · rw [if_neg ht]

theorem mem_pqPut_self (job : V2ProvingJob) (l : List V2ProvingJob) : job ∈ pqPut job l :=
  (mem_pqPut job job l).mpr (Or.inl rfl)

theorem enqueueJobInternal_mem_mono (job j : V2ProvingJob)
    (qs : ProvingRequestType → List V2ProvingJob) (t : ProvingRequestType)
    (h : j ∈ qs t) : j ∈ enqueueJobInternal job qs t := by
  unfold enqueueJobInternal
  by_cases ht : t = job.type
  · rw [if_pos ht]
    exact (mem_pqPut j job (qs t)).mpr (Or.inr h)
  · rw [if_neg ht]
    exact h

theorem enqueueJobInternal_mem_self (job : V2ProvingJob)
    (qs : ProvingRequestType → List V2ProvingJob) :
    job ∈ enqueueJobInternal job qs job.type := by
  unfold enqueueJobInternal
  rw [if_pos rfl]
  exact mem_pqPut_self job (qs job.type)

theorem getEntry_jobKeys {l : List (Nat × V2ProvingJob)} (h : JobKeysOk l) {k : Nat}
    {j : V2ProvingJob} (hk : getEntry k l = some j) : j.id = k := by
  induction l with
  | nil => simp [getEntry] at hk
  | cons e rest ih =>
    by_cases h1 : e.1 = k
    · simp only [getEntry, if_pos h1] at hk
      have hj : j = e.2 := by injection hk with hh; exact hh.symm
      rw [hj, ← h1]
      exact h e (List.mem_cons_self e rest)
    · simp only [getEntry, if_neg h1] at hk
      exact ih (fun e2 he2 => h e2 (List.mem_cons_of_mem e he2)) hk

theorem sweepEntry_eq_none (tmo now : Int) (s : BrokerState) (e : Nat × InProgressMetadata)
    (hjc : getEntry e.1 s.jobsCache = none) :
    sweepEntry tmo now s e = { s with inProgress := delEntry e.1 s.inProgress } := by
  unfold sweepEntry
  rw [hjc]

theorem sweepEntry_eq_stale (tmo now : Int) (s : BrokerState) (e : Nat × InProgressMetadata)
    (item : V2ProvingJob) (hjc : getEntry e.1 s.jobsCache = some item)
    (hstale : tmo ≤ now - e.2.lastUpdatedAt) :
    sweepEntry tmo now s e
      = { s with
          inProgress := delEntry e.1 s.inProgress
          queues := enqueueJobInternal item s.queues } := by
  unfold sweepEntry
  rw [hjc]
  show (if tmo ≤ now - e.2.lastUpdatedAt then
      ({ s with
         inProgress := delEntry e.1 s.inProgress
         queues := enqueueJobInternal item s.queues } : BrokerState)
    else s) = _
  rw [if_pos hstale]

theorem sweepEntry_eq_fresh (tmo now : Int) (s : BrokerState) (e : Nat × InProgressMetadata)
    (item : V2ProvingJob) (hjc : getEntry e.1 s.jobsCache = some item)
    (hstale : ¬ tmo ≤ now - e.2.lastUpdatedAt) :
    sweepEntry tmo now s e = s := by
  unfold sweepEntry
  rw [hjc]
  show (if tmo ≤ now - e.2.lastUpdatedAt then
      ({ s with
         inProgress := delEntry e.1 s.inProgress
         queues := enqueueJobInternal item s.queues } : BrokerState)
    else s) = _
  rw [if_neg hstale]

theorem sweepEntry_fixed (tmo now : Int) (s : BrokerState) (e : Nat × InProgressMetadata) :
    (sweepEntry tmo now s e).jobsCache = s.jobsCache ∧
    (sweepEntry tmo now s e).resultsCache = s.resultsCache ∧
    (sweepEntry tmo now s e).retries = s.retries ∧
    (sweepEntry tmo now s e).dbJobs = s.dbJobs ∧
    (sweepEntry tmo now s e).dbResults = s.dbResults := by
  cases hjc : getEntry e.1 s.jobsCache with
  | none =>
    rw [sweepEntry_eq_none tmo now s e hjc]
    exact ⟨rfl, rfl, rfl, rfl, rfl⟩
  | some item =>
    by_cases hstale : tmo ≤ now - e.2.lastUpdatedAt
    · rw [sweepEntry_eq_stale tmo now s e item hjc hstale]
      exact ⟨rfl, rfl, rfl, rfl, rfl⟩
    · rw [sweepEntry_eq_fresh tmo now s e item hjc hstale]
      exact ⟨rfl, rfl, rfl, rfl, rfl⟩

theorem sweepFold_fixed (tmo now : Int) (es : List (Nat × InProgressMetadata)) :
    ∀ s : BrokerState,
      ((es.foldl (sweepEntry tmo now) s).jobsCache = s.jobsCache ∧
       (es.foldl (sweepEntry tmo now) s).resultsCache = s.resultsCache ∧
       (es.foldl (sweepEntry tmo now) s).retries = s.retries ∧
       (es.foldl (sweepEntry tmo now) s).dbJobs = s.dbJobs ∧
       (es.foldl (sweepEntry tmo now) s).dbResults = s.dbResults) := by
  induction es with
  | nil => intro s; exact ⟨rfl, rfl, rfl, rfl, rfl⟩
  | cons e rest ih =>
    intro s
    rw [List.foldl_cons]
    have h1 := ih (sweepEntry tmo now s e)
    have h2 := sweepEntry_fixed tmo now s e
    exact ⟨h1.1.trans h2.1, h1.2.1.trans h2.2.1, h1.2.2.1.trans h2.2.2.1,
      h1.2.2.2.1.trans h2.2.2.2.1, h1.2.2.2.2.trans h2.2.2.2.2⟩

theorem sweepEntry_lease_none (tmo now : Int) (s : BrokerState) (e : Nat × InProgressMetadata)
    (id : Nat) (h : getEntry id s.inProgress = none) :
    getEntry id (sweepEntry tmo now s e).inProgress = none := by
  cases hjc : getEntry e.1 s.jobsCache with
  | none =>
    rw [sweepEntry_eq_none tmo now s e hjc]
    show getEntry id (delEntry e.1 s.inProgress) = none
    rw [getEntry_delEntry]
    by_cases hid : e.1 = id
    · rw [if_pos hid]
    · rw [if_neg hid]; exact h
  | some item =>
    by_cases hstale : tmo ≤ now - e.2.lastUpdatedAt
    · rw [sweepEntry_eq_stale tmo now s e item hjc hstale]
      show getEntry id (delEntry e.1 s.inProgress) = none
      rw [getEntry_delEntry]
      by_cases hid : e.1 = id
      · rw [if_pos hid]
      · rw [if_neg hid]; exact h
    · rw [sweepEntry_eq_fresh tmo now s e item hjc hstale]
      exact h

theorem sweepFold_lease_none (tmo now : Int) (es : List (Nat × InProgressMetadata)) (id : Nat) :
    ∀ s : BrokerState, getEntry id s.inProgress = none →
      getEntry id (es.foldl (sweepEntry tmo now) s).inProgress = none := by
  induction es with
  | nil => intro s h; exact h
  | cons e rest ih =>
    intro s h
    rw [List.foldl_cons]
    exact ih (sweepEntry tmo now s e) (sweepEntry_lease_none tmo now s e id h)

theorem sweepEntry_queue_mono (tmo now : Int) (s : BrokerState) (e : Nat × InProgressMetadata)
    (t : ProvingRequestType) (j : V2ProvingJob) (h : j ∈ s.queues t) :
    j ∈ (sweepEntry tmo now s e).queues t := by
  cases hjc : getEntry e.1 s.jobsCache with
  | none =>
    rw [sweepEntry_eq_none tmo now s e hjc]
    exact h
  | some item =>
    by_cases hstale : tmo ≤ now - e.2.lastUpdatedAt
    · rw [sweepEntry_eq_stale tmo now s e item hjc hstale]
      exact enqueueJobInternal_mem_mono item j s.queues t h
    · rw [sweepEntry_eq_fresh tmo now s e item hjc hstale]
      exact h

theorem sweepFold_queue_mono (tmo now : Int) (es : List (Nat × InProgressMetadata))
    (t : ProvingRequestType) (j : V2ProvingJob) :
    ∀ s : BrokerState, j ∈ s.queues t → j ∈ (es.foldl (sweepEntry tmo now) s).queues t := by
  induction es with
  | nil => intro s h; exact h
  | cons e rest ih =>
    intro s h
    rw [List.foldl_cons]
    exact ih (sweepEntry tmo now s e) (sweepEntry_queue_mono tmo now s e t j h)

theorem sweepEntry_count_fixed (tmo now : Int) (s : BrokerState) (e : Nat × InProgressMetadata)
    (id : Nat) (hkeys : JobKeysOk s.jobsCache) (hne : e.1 ≠ id) (t : ProvingRequestType) :
    countId id ((sweepEntry tmo now s e).queues t) = countId id (s.queues t) := by
  cases hjc : getEntry e.1 s.jobsCache with
  | none => rw [sweepEntry_eq_none tmo now s e hjc]
  | some item =>
    by_cases hstale : tmo ≤ now - e.2.lastUpdatedAt
    · rw [sweepEntry_eq_stale tmo now s e item hjc hstale]
      have hkey : item.id = e.1 := getEntry_jobKeys hkeys hjc
      exact countId_enqueueJobInternal_ne id item s.queues t (by rw [hkey]; exact hne)
    · rw [sweepEntry_eq_fresh tmo now s e item hjc hstale]

theorem sweepFold_count_fixed (tmo now : Int) (es : List (Nat × InProgressMetadata)) (id : Nat) :
    ∀ s : BrokerState, JobKeysOk s.jobsCache → (∀ e ∈ es, e.1 ≠ id) →
      ∀ t, countId id ((es.foldl (sweepEntry tmo now) s).queues t) = countId id (s.queues t) := by
  induction es with
  | nil => intro s _ _ t; rfl
  | cons e rest ih =>
    intro s hkeys hne t
    rw [List.foldl_cons]
    have hkeys2 : JobKeysOk (sweepEntry tmo now s e).jobsCache := by
      rw [(sweepEntry_fixed tmo now s e).1]
      exact hkeys
    have h1 := ih (sweepEntry tmo now s e) hkeys2
      (fun e2 he2 => hne e2 (List.mem_cons_of_mem e he2)) t
    rw [h1]
    exact sweepEntry_count_fixed tmo now s e id hkeys (hne e (List.mem_cons_self e rest)) t

/-! ### Startup fold support -/

theorem restoreEntry_eq_some (s : BrokerState) (e : V2ProvingJob × Option V2ProvingJobResult)
    (r : V2ProvingJobResult) (hr : e.2 = some r) :
    restoreEntry s e
      = { s with
          jobsCache := setEntry e.1.id e.1 s.jobsCache
          resultsCache := setEntry e.1.id r s.resultsCache } := by
  unfold restoreEntry
  rw [hr]

theorem restoreEntry_eq_none (s : BrokerState) (e : V2ProvingJob × Option V2ProvingJobResult)
    (hr : e.2 = none) :
    restoreEntry s e
      = { s with
          jobsCache := setEntry e.1.id e.1 s.jobsCache
          queues := enqueueJobInternal e.1 s.queues } := by
  unfold restoreEntry
  rw [hr]

theorem startBroker_jobs_untouched (es : List (V2ProvingJob × Option V2ProvingJobResult))
    (id : Nat) : ∀ s : BrokerState, (∀ e ∈ es, e.1.id ≠ id) →
      getEntry id (startBroker es s).jobsCache = getEntry id s.jobsCache := by
  induction es with
  | nil => intro s _; rfl
  | cons e rest ih =>
    intro s hne
    show getEntry id (startBroker rest (restoreEntry s e)).jobsCache = _
    rw [ih (restoreEntry s e) (fun e2 he2 => hne e2 (List.mem_cons_of_mem e he2))]
    have hne1 : e.1.id ≠ id := hne e (List.mem_cons_self e rest)
    cases hr : e.2 with
    | some r =>
      rw [restoreEntry_eq_some s e r hr]
      show getEntry id (setEntry e.1.id e.1 s.jobsCache) = _
      rw [getEntry_setEntry, if_neg hne1]
    | none =>
      rw [restoreEntry_eq_none s e hr]
      show getEntry id (setEntry e.1.id e.1 s.jobsCache) = _
      rw [getEntry_setEntry, if_neg hne1]

theorem startBroker_results_untouched (es : List (V2ProvingJob × Option V2ProvingJobResult))
    (id : Nat) : ∀ s : BrokerState, (∀ e ∈ es, e.1.id ≠ id) →
      getEntry id (startBroker es s).resultsCache = getEntry id s.resultsCache := by
  induction es with
  | nil => intro s _; rfl
  | cons e rest ih =>
    intro s hne
    show getEntry id (startBroker rest (restoreEntry s e)).resultsCache = _
    rw [ih (restoreEntry s e) (fun e2 he2 => hne e2 (List.mem_cons_of_mem e he2))]
    have hne1 : e.1.id ≠ id := hne e (List.mem_cons_self e rest)
    cases hr : e.2 with
    | some r =>
      rw [restoreEntry_eq_some s e r hr]
      show getEntry id (setEntry e.1.id r s.resultsCache) = _
      rw [getEntry_setEntry, if_neg hne1]
    | none =>
      rw [restoreEntry_eq_none s e hr]

theorem startBroker_count_nores (es : List (V2ProvingJob × Option V2ProvingJobResult))
    (id : Nat) : ∀ s : BrokerState, (∀ e ∈ es, e.1.id = id → e.2.isSome) →
      ∀ t, countId id ((startBroker es s).queues t) = countId id (s.queues t) := by
  induction es with
  | nil => intro s _ t; rfl
  | cons e rest ih =>
    intro s hno t
    show countId id ((startBroker rest (restoreEntry s e)).queues t) = _
    rw [ih (restoreEntry s e) (fun e2 he2 => hno e2 (List.mem_cons_of_mem e he2)) t]
    cases hr : e.2 with
    | some r =>
      rw [restoreEntry_eq_some s e r hr]
    | none =>
      rw [restoreEntry_eq_none s e hr]
      show countId id (enqueueJobInternal e.1 s.queues t) = _
      have hne1 : e.1.id ≠ id := by
        intro hh
        have := hno e (List.mem_cons_self e rest) hh
        rw [hr] at this
        simp at this
      exact countId_enqueueJobInternal_ne id e.1 s.queues t hne1

theorem startBroker_queue_mono (es : List (V2ProvingJob × Option V2ProvingJobResult))
    (t : ProvingRequestType) (j : V2ProvingJob) :
    ∀ s : BrokerState, j ∈ s.queues t → j ∈ (startBroker es s).queues t := by
  induction es with
  | nil => intro s h; exact h
  | cons e rest ih =>
    intro s h
    show j ∈ (startBroker rest (restoreEntry s e)).queues t
    refine ih (restoreEntry s e) ?_
    cases hr : e.2 with
    | some r =>
      rw [restoreEntry_eq_some s e r hr]
      exact h
    | none =>
      rw [restoreEntry_eq_none s e hr]
      exact enqueueJobInternal_mem_mono e.1 j s.queues t h

theorem startBroker_jobs_domain (es : List (V2ProvingJob × Option V2ProvingJobResult))
    (id : Nat) : ∀ s : BrokerState,
      (getEntry id (startBroker es s).jobsCache).isSome →
      (∃ e ∈ es, e.1.id = id) ∨ (getEntry id s.jobsCache).isSome := by
  induction es with
  | nil => intro s h; exact Or.inr h
  | cons e rest ih =>
    intro s h
    rcases ih (restoreEntry s e) h with h2 | h2
    · rcases h2 with ⟨e2, he2, hid⟩
      exact Or.inl ⟨e2, List.mem_cons_of_mem e he2, hid⟩
    · by_cases hid : e.1.id = id
      · exact Or.inl ⟨e, List.mem_cons_self e rest, hid⟩
      · right
        cases hr : e.2 with
        | some r =>
          rw [restoreEntry_eq_some s e r hr] at h2
          revert h2
          show (getEntry id (setEntry e.1.id e.1 s.jobsCache)).isSome → _
          rw [getEntry_setEntry, if_neg hid]
          exact fun hh => hh
        | none =>
          rw [restoreEntry_eq_none s e hr] at h2
          revert h2
          show (getEntry id (setEntry e.1.id e.1 s.jobsCache)).isSome → _
          rw [getEntry_setEntry, if_neg hid]
          exact fun hh => hh

theorem startBroker_results_domain (es : List (V2ProvingJob × Option V2ProvingJobResult))
    (id : Nat) : ∀ s : BrokerState,
      (getEntry id (startBroker es s).resultsCache).isSome →
      (∃ e ∈ es, e.1.id = id ∧ e.2.isSome) ∨ (getEntry id s.resultsCache).isSome := by
  induction es with
  | nil => intro s h; exact Or.inr h
  | cons e rest ih =>
    intro s h
    rcases ih (restoreEntry s e) h with h2 | h2
    · rcases h2 with ⟨e2, he2, hid⟩
      exact Or.inl ⟨e2, List.mem_cons_of_mem e he2, hid⟩
    · cases hr : e.2 with
      | some r =>
        by_cases hid : e.1.id = id
        · exact Or.inl ⟨e, List.mem_cons_self e rest, hid, by rw [hr]; rfl⟩
        · right
          rw [restoreEntry_eq_some s e r hr] at h2
          revert h2
          show (getEntry id (setEntry e.1.id r s.resultsCache)).isSome → _
          rw [getEntry_setEntry, if_neg hid]
          exact fun hh => hh
      | none =>
        right
        rw [restoreEntry_eq_none s e hr] at h2
        exact h2

theorem totalQueued_eq_zero {id : Nat} {s : BrokerState}
    (h : ∀ t, countId id (s.queues t) = 0) : totalQueued id s = 0 := by
  simp [totalQueued, allProofTypes, h]

/-! ### Dispatch ordering support -/

theorem proofTypeComparator_neg_iff (a b : ProvingRequestType) :
    proofTypeComparator a b = -1 ↔ claimRank a < claimRank b := by
  revert a b
  decide

theorem proofTypeComparator_not_neg (a b : ProvingRequestType)
    (h : ¬ proofTypeComparator a b = -1) : claimRank b ≤ claimRank a := by
  revert h
  revert a b
  decide

theorem mem_insertPT (x a : ProvingRequestType) (l : List ProvingRequestType) :
    x ∈ insertPT a l ↔ x = a ∨ x ∈ l := by
  induction l with
  | nil => simp [insertPT]
  | cons b rest ih =>
    by_cases h : proofTypeComparator a b = -1
    · rw [insertPT, if_pos h]
      simp
    · rw [insertPT, if_neg h]
      simp [ih]
      tauto

theorem mem_sortProofTypes (x : ProvingRequestType) (l : List ProvingRequestType) :
    x ∈ sortProofTypes l ↔ x ∈ l := by
  induction l with
  | nil => simp [sortProofTypes]
  | cons a rest ih =>
    rw [sortProofTypes, mem_insertPT, ih]
    simp

theorem pairwise_insertPT (a : ProvingRequestType) (l : List ProvingRequestType)
    (h : l.Pairwise (fun x y => claimRank x ≤ claimRank y)) :
    (insertPT a l).Pairwise (fun x y => claimRank x ≤ claimRank y) := by
  induction l with
  | nil => simp [insertPT]
  | cons b rest ih =>
    rcases List.pairwise_cons.mp h with ⟨hb, hrest⟩
    by_cases hc : proofTypeComparator a b = -1
    · rw [insertPT, if_pos hc]
      refine List.pairwise_cons.mpr ⟨?_, h⟩
      intro y hy
      have hab : claimRank a < claimRank b := (proofTypeComparator_neg_iff a b).mp hc
      rcases List.mem_cons.mp hy with rfl | hy
      · exact hab.le
      · exact hab.le.trans (hb y hy)
    · rw [insertPT, if_neg hc]
      refine List.pairwise_cons.mpr ⟨?_, ih hrest⟩
      intro y hy
      rcases (mem_insertPT y a rest).mp hy with hy2 | hy2
      · rw [hy2]; exact proofTypeComparator_not_neg a b hc
      · exact hb y hy2

theorem pairwise_sortProofTypes (l : List ProvingRequestType) :
    (sortProofTypes l).Pairwise (fun x y => claimRank x ≤ claimRank y) := by
  induction l with
  | nil => simp [sortProofTypes]
  | cons a rest ih => exact pairwise_insertPT a (sortProofTypes rest) ih

theorem pickJob_first (now : Int) (s : BrokerState) :
    ∀ (l : List ProvingRequestType) (job : V2ProvingJob) (s2 : BrokerState),
      l.Pairwise (fun x y => claimRank x ≤ claimRank y) →
      pickJob now s l = (some job, s2) →
      ∃ t ∈ l, (s.queues t).head? = some job ∧
        (∀ u ∈ l, s.queues u ≠ [] → claimRank t ≤ claimRank u) := by
  intro l
  induction l with
  | nil =>
    intro job s2 _ h
    exact absurd (congrArg Prod.fst h) (by simp [pickJob])
  | cons t rest ih =>
    intro job s2 hpair h
    rcases List.pairwise_cons.mp hpair with ⟨ht, hrest⟩
    cases hq : s.queues t with
    | nil =>
      have hstep : pickJob now s (t :: rest) = pickJob now s rest := by
        simp [pickJob, hq]
      rw [hstep] at h
      rcases ih job s2 hrest h with ⟨t2, ht2, hhead, hmin⟩
      refine ⟨t2, List.mem_cons_of_mem t ht2, hhead, ?_⟩
      intro u hu hne
      rcases List.mem_cons.mp hu with rfl | hu
      · exact absurd hq hne
      · exact hmin u hu hne
    | cons j rem =>
      have hstep : pickJob now s (t :: rest)
          = (some j,
            { s with
              queues := fun u => if u = t then rem else s.queues u
              inProgress := setEntry j.id
                { id := j.id, startedAt := now, lastUpdatedAt := now } s.inProgress }) := by
        simp [pickJob, hq]
      rw [hstep] at h
      have hjob : j = job := by
        have := congrArg Prod.fst h
        simpa using this
      refine ⟨t, List.mem_cons_self t rest, ?_, ?_⟩
      · rw [hq, ← hjob]; rfl
      · intro u hu hne
        rcases List.mem_cons.mp hu with rfl | hu
        · exact le_refl _
        · exact ht u hu

/-! ### Operation equation lemmas -/

theorem enqueueProvingJob_eq_dup (job existing : V2ProvingJob) (s : BrokerState)
    (hc : getEntry job.id s.jobsCache = some existing) :
    enqueueProvingJob job s
      = if job = existing then (.accepted, s) else (.duplicateIdConflict, s) := by
  unfold enqueueProvingJob
  rw [hc]

theorem enqueueProvingJob_eq_fresh (job : V2ProvingJob) (s : BrokerState)
    (hc : getEntry job.id s.jobsCache = none) :
    enqueueProvingJob job s
      = (.accepted,
        { s with
          dbJobs := setEntry job.id job s.dbJobs
          jobsCache := setEntry job.id job s.jobsCache
          queues := enqueueJobInternal job s.queues }) := by
  unfold enqueueProvingJob
  rw [hc]

theorem reportSuccess_eq_missing (id : Nat) (v : String) (s : BrokerState)
    (hc : getEntry id s.jobsCache = none) :
    reportProvingJobSuccess id v s = s := by
  unfold reportProvingJobSuccess
  rw [hc]

theorem reportSuccess_eq_present (id : Nat) (v : String) (s : BrokerState)
    (item : V2ProvingJob) (hc : getEntry id s.jobsCache = some item) :
    reportProvingJobSuccess id v s
      = (let s1 := if (getEntry id s.inProgress).isSome
            then { s with inProgress := delEntry id s.inProgress } else s
         { s1 with
           dbResults := setEntry id (.value v) s1.dbResults
           resultsCache := setEntry id (.value v) s1.resultsCache }) := by
  unfold reportProvingJobSuccess
  rw [hc]

theorem reportError_eq_missing (mr : Nat) (id : Nat) (err : String) (retry : Bool)
    (s : BrokerState) (hc : getEntry id s.jobsCache = none) :
    reportProvingJobError mr id err retry s = s := by
  unfold reportProvingJobError
  rw [hc]

theorem reportError_eq_present (mr : Nat) (id : Nat) (err : String) (retry : Bool)
    (s : BrokerState) (item : V2ProvingJob) (hc : getEntry id s.jobsCache = some item) :
    reportProvingJobError mr id err retry s
      = (let retried := (getEntry id s.retries).getD 0
         let s1 := if (getEntry id s.inProgress).isSome
            then { s with inProgress := delEntry id s.inProgress } else s
         if retry = true ∧ retried + 1 < mr then
           { s1 with
             retries := setEntry id (retried + 1) s1.retries
             queues := enqueueJobInternal item s1.queues }
         else
           { s1 with
             dbResults := setEntry id (.error err) s1.dbResults
             resultsCache := setEntry id (.error err) s1.resultsCache }) := by
  unfold reportProvingJobError
  rw [hc]

/-! ### Claim theorems -/

/-- C10: calling getProvingJob with a present but empty allow list returns no
job and leaves the whole broker state (queues, lease table, job cache,
result cache, retry counters, store) unchanged even when jobs are queued,
because an empty allowList array is truthy in the source; the all-classes
default applies only when the filter carries no allow list.  The closed
conjuncts exhibit a state with a queued job where the empty allow list
yields nothing while the absent one dispatches the job. -/
theorem c10_empty_allow_list (now : Int) (s : BrokerState) :
    getProvingJob (some []) now s = (none, s) ∧
    getProvingJob none now s = pickJob now s (sortProofTypes allProofTypes) ∧
    (getProvingJob (some []) 0
      (enqueueProvingJob ⟨1, .BASE_PARITY, 1, "p"⟩ initialBroker).2).1 = none ∧
    (getProvingJob none 0
      (enqueueProvingJob ⟨1, .BASE_PARITY, 1, "p"⟩ initialBroker).2).1
      = some ⟨1, .BASE_PARITY, 1, "p"⟩ :=
  ⟨rfl, rfl, by decide, by decide⟩

/-- C8: enqueueProvingJob is idempotent on byte-equal records (the second
call succeeds, changes nothing in memory and writes nothing to the store)
and rejects a record that reuses an indexed id with different contents
(duplicateIdConflict, no state change). -/
theorem c8_enqueue_idempotent (s : BrokerState) (j j2 : V2ProvingJob)
    (hid : j2.id = j.id) (hne : j2 ≠ j)
    (h0 : getEntry j.id s.jobsCache = none) :
    (enqueueProvingJob j s).1 = .accepted ∧
    enqueueProvingJob j (enqueueProvingJob j s).2 = (.accepted, (enqueueProvingJob j s).2) ∧
    enqueueProvingJob j2 (enqueueProvingJob j s).2
      = (.duplicateIdConflict, (enqueueProvingJob j s).2) := by
  have hfresh := enqueueProvingJob_eq_fresh j s h0
  have hlook : getEntry j.id (enqueueProvingJob j s).2.jobsCache = some j := by
    rw [hfresh]
    show getEntry j.id (setEntry j.id j s.jobsCache) = some j
    rw [getEntry_setEntry, if_pos rfl]
  refine ⟨by rw [hfresh], ?_, ?_⟩
  · rw [enqueueProvingJob_eq_dup j j (enqueueProvingJob j s).2 hlook, if_pos rfl]
  · have hlook2 : getEntry j2.id (enqueueProvingJob j s).2.jobsCache = some j := by
      rw [hid]; exact hlook
    rw [enqueueProvingJob_eq_dup j2 j (enqueueProvingJob j s).2 hlook2, if_neg hne]

/-- C8 witness: the theorem applied to a fresh broker and two records
sharing id 1 with different block numbers. -/
theorem c8_enqueue_idempotent_witness :
    (enqueueProvingJob ⟨1, .PUBLIC_VM, 1, "a"⟩ initialBroker).1 = .accepted ∧
    enqueueProvingJob ⟨1, .PUBLIC_VM, 1, "a"⟩
        (enqueueProvingJob ⟨1, .PUBLIC_VM, 1, "a"⟩ initialBroker).2
      = (.accepted, (enqueueProvingJob ⟨1, .PUBLIC_VM, 1, "a"⟩ initialBroker).2) ∧
    enqueueProvingJob ⟨1, .PUBLIC_VM, 2, "a"⟩
        (enqueueProvingJob ⟨1, .PUBLIC_VM, 1, "a"⟩ initialBroker).2
      = (.duplicateIdConflict, (enqueueProvingJob ⟨1, .PUBLIC_VM, 1, "a"⟩ initialBroker).2) :=
  c8_enqueue_idempotent initialBroker ⟨1, .PUBLIC_VM, 1, "a"⟩ ⟨1, .PUBLIC_VM, 2, "a"⟩
    (by decide) (by decide) (by decide)

/-- C2 counterexample: the claim says cancel removes the id from all
in-memory structures before the store delete, so the id would be gone even
when the store delete fails, and that the owning priority queue entry is
removed.  In the code the awaited store delete runs first: with a failing
store the job record is still in the JobIndex afterwards, and even a
successful cancel leaves the cancelled job sitting in its class queue. -/
theorem c2_cancel_counterexample :
    (removeAndCancelProvingJob 1 false
      (enqueueProvingJob ⟨1, .BASE_PARITY, 1, "p"⟩ initialBroker).2).1
      = .storeUnavailable ∧
    getEntry 1 (removeAndCancelProvingJob 1 false
      (enqueueProvingJob ⟨1, .BASE_PARITY, 1, "p"⟩ initialBroker).2).2.jobsCache
      = some ⟨1, .BASE_PARITY, 1, "p"⟩ ∧
    countId 1 ((removeAndCancelProvingJob 1 true
      (enqueueProvingJob ⟨1, .BASE_PARITY, 1, "p"⟩ initialBroker).2).2.queues .BASE_PARITY)
      = 1 := by
  decide

/-- C2 amended: cancel performs the durable-store delete first; only when
it succeeds does it remove the id from the JobIndex, ResultIndex,
LeaseTable and RetryCounter (and from the persisted job and result maps);
it never removes the id from the owning priority queue; when the store
delete fails with StoreUnavailable the error is surfaced and all in-memory
structures are left unchanged. -/
theorem c2_cancel_amended (id : Nat) (s : BrokerState) :
    removeAndCancelProvingJob id false s = (.storeUnavailable, s) ∧
    (removeAndCancelProvingJob id true s).1 = .ok ∧
    getEntry id (removeAndCancelProvingJob id true s).2.jobsCache = none ∧
    getEntry id (removeAndCancelProvingJob id true s).2.resultsCache = none ∧
    getEntry id (removeAndCancelProvingJob id true s).2.inProgress = none ∧
    getEntry id (removeAndCancelProvingJob id true s).2.retries = none ∧
    getEntry id (removeAndCancelProvingJob id true s).2.dbJobs = none ∧
    getEntry id (removeAndCancelProvingJob id true s).2.dbResults = none ∧
    (removeAndCancelProvingJob id true s).2.queues = s.queues := by
  refine ⟨rfl, rfl, ?_, ?_, ?_, ?_, ?_, ?_, rfl⟩ <;>
    · show getEntry id (delEntry id _) = none
      rw [getEntry_delEntry, if_pos rfl]

/-- C1 counterexample: the claim says a report for an id that already has a
recorded outcome is ignored and leaves the ResultIndex and the store
unchanged.  In the code reportProvingJobSuccess only checks the job cache,
so a second success report for a settled job overwrites both the cached
and the persisted result. -/
theorem c1_settled_report_counterexample :
    getEntry 1 (runOps defaultConfig initialBroker
      [.enqueueOp ⟨1, .BASE_PARITY, 1, "p"⟩, .acquireOp none 0,
       .successOp 1 "v1"]).resultsCache = some (.value "v1") ∧
    getEntry 1 (reportProvingJobSuccess 1 "v2" (runOps defaultConfig initialBroker
      [.enqueueOp ⟨1, .BASE_PARITY, 1, "p"⟩, .acquireOp none 0,
       .successOp 1 "v1"])).resultsCache = some (.value "v2") ∧
    getEntry 1 (reportProvingJobSuccess 1 "v2" (runOps defaultConfig initialBroker
      [.enqueueOp ⟨1, .BASE_PARITY, 1, "p"⟩, .acquireOp none 0,
       .successOp 1 "v1"])).dbResults = some (.value "v2") := by
  decide

/-- C1 amended: once a job id has a recorded outcome, a subsequent
report_success or report_failure is ignored only when the id has been
removed from the JobIndex; while the job record is still indexed, a
subsequent report_success, or a report_failure that does not take the
retry path, overwrites the recorded outcome in the ResultIndex and in the
durable store, so the last report wins. -/
theorem c1_settled_report_amended (mr : Nat) (s : BrokerState) (id : Nat)
    (v err : String) (retry : Bool) (r0 : V2ProvingJobResult)
    (hsettled : getEntry id s.resultsCache = some r0) :
    (getEntry id s.jobsCache = none →
      reportProvingJobSuccess id v s = s ∧
      reportProvingJobError mr id err retry s = s) ∧
    (∀ item, getEntry id s.jobsCache = some item →
      getEntry id (reportProvingJobSuccess id v s).resultsCache = some (.value v) ∧
      getEntry id (reportProvingJobSuccess id v s).dbResults = some (.value v) ∧
      (¬ (retry = true ∧ (getEntry id s.retries).getD 0 + 1 < mr) →
        getEntry id (reportProvingJobError mr id err retry s).resultsCache
          = some (.error err) ∧
        getEntry id (reportProvingJobError mr id err retry s).dbResults
          = some (.error err))) := by
  constructor
  · intro hnone
    exact ⟨reportSuccess_eq_missing id v s hnone, reportError_eq_missing mr id err retry s hnone⟩
  · intro item hitem
    by_cases hip : (getEntry id s.inProgress).isSome
    · rw [reportSuccess_eq_present id v s item hitem]
      simp only [hip, if_true]
      refine ⟨?_, ?_, ?_⟩
      · show getEntry id (setEntry id (.value v) s.resultsCache) = some (.value v)
        rw [getEntry_setEntry, if_pos rfl]
      · show getEntry id (setEntry id (.value v) s.dbResults) = some (.value v)
        rw [getEntry_setEntry, if_pos rfl]
      · intro hcond
        rw [reportError_eq_present mr id err retry s item hitem]
        simp only [hip, if_true, if_neg hcond]
        constructor
        · show getEntry id (setEntry id (.error err) s.resultsCache) = some (.error err)
          rw [getEntry_setEntry, if_pos rfl]
        · show getEntry id (setEntry id (.error err) s.dbResults) = some (.error err)
          rw [getEntry_setEntry, if_pos rfl]
    · rw [reportSuccess_eq_present id v s item hitem]
      simp only [hip, if_false]
      refine ⟨?_, ?_, ?_⟩
      · show getEntry id (setEntry id (.value v) s.resultsCache) = some (.value v)
        rw [getEntry_setEntry, if_pos rfl]
      · show getEntry id (setEntry id (.value v) s.dbResults) = some (.value v)
        rw [getEntry_setEntry, if_pos rfl]
      · intro hcond
        rw [reportError_eq_present mr id err retry s item hitem]
        simp only [hip, if_false, if_neg hcond]
        constructor
        · show getEntry id (setEntry id (.error err) s.resultsCache) = some (.error err)
          rw [getEntry_setEntry, if_pos rfl]
        · show getEntry id (setEntry id (.error err) s.dbResults) = some (.error err)
          rw [getEntry_setEntry, if_pos rfl]

/-- C1 amended witness: the amended theorem applied to the settled state
reached by enqueue, acquire, report_success with value v1: a second
success report overwrites the cached result. -/
theorem c1_settled_report_amended_witness :
    getEntry 1 (reportProvingJobSuccess 1 "v2" (runOps defaultConfig initialBroker
      [.enqueueOp ⟨1, .BASE_PARITY, 1, "p"⟩, .acquireOp none 0,
       .successOp 1 "v1"])).resultsCache = some (.value "v2") :=
  ((c1_settled_report_amended 3 (runOps defaultConfig initialBroker
      [.enqueueOp ⟨1, .BASE_PARITY, 1, "p"⟩, .acquireOp none 0, .successOp 1 "v1"])
      1 "v2" "e" false (.value "v1") (by decide)).2
    ⟨1, .BASE_PARITY, 1, "p"⟩ (by decide)).1

/-- C3 counterexample: the claim says that after every complete broker
operation an id in the LeaseTable is in the JobIndex and absent from the
ResultIndex.  Cancelling a queued job does not remove it from its queue,
so a later acquire pops it and installs a lease for an id that the
JobIndex no longer contains. -/
theorem c3_lease_invariant_counterexample :
    (getEntry 1 (runOps defaultConfig initialBroker
      [.enqueueOp ⟨1, .BASE_PARITY, 1, "p"⟩, .cancelOp 1 true,
       .acquireOp none 0]).inProgress).isSome = true ∧
    getEntry 1 (runOps defaultConfig initialBroker
      [.enqueueOp ⟨1, .BASE_PARITY, 1, "p"⟩, .cancelOp 1 true,
       .acquireOp none 0]).jobsCache = none := by
  decide

/-- C3 amended: in every run from the initial broker state in which cancel
is only invoked for ids that are not sitting in a queue and success or
failure reports are only delivered for currently leased ids, after every
complete broker operation every id in the LeaseTable is in the JobIndex
and absent from the ResultIndex.  Without those two delivery restrictions
the property fails (see the counterexample). -/
theorem c3_lease_invariant_amended (cfg : BrokerConfig) (ops : List BrokerOp)
    (h : traceOk cfg initialBroker ops = true) :
    ∀ id, (getEntry id (runOps cfg initialBroker ops).inProgress).isSome →
      (getEntry id (runOps cfg initialBroker ops).jobsCache).isSome ∧
      getEntry id (runOps cfg initialBroker ops).resultsCache = none :=
  fun id hip =>
    ⟨(brokerInv_runOps cfg ops initialBroker brokerInv_initial h).leaseHasJob id hip,
     (brokerInv_runOps cfg ops initialBroker brokerInv_initial h).leaseNoResult id hip⟩

/-- C3 amended witness: the guarded trace enqueue then acquire leases job
1, which is indexed and unsettled. -/
theorem c3_lease_invariant_amended_witness :
    (getEntry 1 (runOps defaultConfig initialBroker
      [.enqueueOp ⟨1, .BASE_PARITY, 1, "p"⟩, .acquireOp none 0]).jobsCache).isSome = true ∧
    getEntry 1 (runOps defaultConfig initialBroker
      [.enqueueOp ⟨1, .BASE_PARITY, 1, "p"⟩, .acquireOp none 0]).resultsCache = none :=
  c3_lease_invariant_amended defaultConfig
    [.enqueueOp ⟨1, .BASE_PARITY, 1, "p"⟩, .acquireOp none 0] (by decide) 1 (by decide)

/-- C4 counterexample: the claim says no sequence of enqueue, acquire,
report_failure with retry and timeout sweeps can queue an id twice.  A
report_failure(retry) for a job that is queued but not leased re-enqueues
it: after enqueue followed by such a stale failure report the id sits in
its class queue twice. -/
theorem c4_queue_once_counterexample :
    totalQueued 1 (runOps defaultConfig initialBroker
      [.enqueueOp ⟨1, .BASE_PARITY, 1, "p"⟩, .failureOp 1 "e" true]) = 2 := by
  decide

/-- C4 amended: in every run from the initial broker state in which cancel
is only invoked for ids that are not queued and success or failure reports
are only delivered for currently leased ids, every job id appears at most
once across all priority queues after every complete operation; in
particular this covers all sequences of enqueue, acquire, leased
report_failure with retry, and timeout sweeps.  A failure report for a
queued, non-leased job breaks the property (see the counterexample). -/
theorem c4_queue_once_amended (cfg : BrokerConfig) (ops : List BrokerOp)
    (h : traceOk cfg initialBroker ops = true) :
    ∀ id, totalQueued id (runOps cfg initialBroker ops) ≤ 1 :=
  fun id => (brokerInv_runOps cfg ops initialBroker brokerInv_initial h).qOnce id

/-- C4 amended witness: after the guarded trace enqueue, acquire, leased
failure report with retry, and a timeout sweep, id 1 is queued at most
once. -/
theorem c4_queue_once_amended_witness :
    totalQueued 1 (runOps defaultConfig initialBroker
      [.enqueueOp ⟨1, .BASE_PARITY, 1, "p"⟩, .acquireOp none 0,
       .failureOp 1 "e" true, .sweepOp 50000]) ≤ 1 :=
  c4_queue_once_amended defaultConfig
    [.enqueueOp ⟨1, .BASE_PARITY, 1, "p"⟩, .acquireOp none 0,
     .failureOp 1 "e" true, .sweepOp 50000] (by decide) 1

theorem reportError_eq_present_retry (mr : Nat) (id : Nat) (err : String) (s : BrokerState)
    (item : V2ProvingJob) (hc : getEntry id s.jobsCache = some item) :
    reportProvingJobError mr id err true s
      = (let retried := (getEntry id s.retries).getD 0
         let s1 := if (getEntry id s.inProgress).isSome
            then { s with inProgress := delEntry id s.inProgress } else s
         if retried + 1 < mr then
           { s1 with
             retries := setEntry id (retried + 1) s1.retries
             queues := enqueueJobInternal item s1.queues }
         else
           { s1 with
             dbResults := setEntry id (.error err) s1.dbResults
             resultsCache := setEntry id (.error err) s1.resultsCache }) := by
  rw [reportError_eq_present mr id err true s item hc]
  simp only [true_and]

/-- C5 counterexample: the claim says that with max_retries 3, after
enqueue, acquire, and three successive report_failure(retry=true) calls
the status is rejected and the job is no longer queued.  Under exactly
that sequence the second and third reports arrive for a job that is
queued but not leased, and the second one re-enqueues it again, so after
the third report the status is rejected but the job still sits in its
class queue twice. -/
theorem c5_retry_budget_counterexample :
    getProvingJobStatus 1 (runOps defaultConfig initialBroker
      [.enqueueOp ⟨1, .BASE_PARITY, 1, "p"⟩, .acquireOp none 0,
       .failureOp 1 "boom" true, .failureOp 1 "boom" true,
       .failureOp 1 "boom" true]) = .rejected "boom" ∧
    totalQueued 1 (runOps defaultConfig initialBroker
      [.enqueueOp ⟨1, .BASE_PARITY, 1, "p"⟩, .acquireOp none 0,
       .failureOp 1 "boom" true, .failureOp 1 "boom" true,
       .failureOp 1 "boom" true]) = 2 := by
  decide

/-- C5 amended: for a known job, report_failure with retry requested
re-pushes the job onto its class queue with the retry counter incremented
and no store write exactly when attempts + 1 is below max_retries, and
otherwise persists and caches the failure without touching queues or
counters.  With max_retries 3, after enqueue, acquire, and three
successive report_failure(retry=true) calls the status is rejected but
the job is still queued, twice, because the second and third reports
concern a job that is no longer leased; when instead each failure is
reported by the worker holding the job (an acquire before every
report_failure), after the third failure the status is rejected and the
job is no longer queued.  The closed conjuncts replay both sequences
with max_retries 3. -/
theorem c5_retry_budget (mr : Nat) (s : BrokerState) (id : Nat) (err : String)
    (item : V2ProvingJob) (hitem : getEntry id s.jobsCache = some item) :
    ((getEntry id s.retries).getD 0 + 1 < mr →
      getEntry id (reportProvingJobError mr id err true s).retries
        = some ((getEntry id s.retries).getD 0 + 1) ∧
      (reportProvingJobError mr id err true s).queues item.type
        = pqPut item (s.queues item.type) ∧
      (∀ t, t ≠ item.type → (reportProvingJobError mr id err true s).queues t = s.queues t) ∧
      (reportProvingJobError mr id err true s).dbJobs = s.dbJobs ∧
      (reportProvingJobError mr id err true s).dbResults = s.dbResults ∧
      (reportProvingJobError mr id err true s).resultsCache = s.resultsCache) ∧
    (¬ (getEntry id s.retries).getD 0 + 1 < mr →
      getEntry id (reportProvingJobError mr id err true s).resultsCache = some (.error err) ∧
      getEntry id (reportProvingJobError mr id err true s).dbResults = some (.error err) ∧
      (reportProvingJobError mr id err true s).queues = s.queues ∧
      (reportProvingJobError mr id err true s).retries = s.retries) ∧
    (getProvingJobStatus 1 (runOps defaultConfig initialBroker
      [.enqueueOp ⟨1, .BASE_PARITY, 1, "p"⟩, .acquireOp none 0,
       .failureOp 1 "boom" true, .failureOp 1 "boom" true,
       .failureOp 1 "boom" true]) = .rejected "boom" ∧
     totalQueued 1 (runOps defaultConfig initialBroker
      [.enqueueOp ⟨1, .BASE_PARITY, 1, "p"⟩, .acquireOp none 0,
       .failureOp 1 "boom" true, .failureOp 1 "boom" true,
       .failureOp 1 "boom" true]) = 2) ∧
    (getProvingJobStatus 1 (runOps defaultConfig initialBroker
      [.enqueueOp ⟨1, .BASE_PARITY, 1, "p"⟩,
       .acquireOp none 0, .failureOp 1 "boom" true,
       .acquireOp none 0, .failureOp 1 "boom" true,
       .acquireOp none 0, .failureOp 1 "boom" true]) = .rejected "boom" ∧
     totalQueued 1 (runOps defaultConfig initialBroker
      [.enqueueOp ⟨1, .BASE_PARITY, 1, "p"⟩,
       .acquireOp none 0, .failureOp 1 "boom" true,
       .acquireOp none 0, .failureOp 1 "boom" true,
       .acquireOp none 0, .failureOp 1 "boom" true]) = 0) := by
  refine ⟨?_, ?_, ⟨by decide, by decide⟩, by decide, by decide⟩
  · intro hlt
    rw [reportError_eq_present_retry mr id err s item hitem]
    by_cases hip : (getEntry id s.inProgress).isSome
    · rw [if_pos hip, if_pos hlt]
      refine ⟨?_, ?_, ?_, rfl, rfl, rfl⟩
      · show getEntry id (setEntry id ((getEntry id s.retries).getD 0 + 1) s.retries)
            = some ((getEntry id s.retries).getD 0 + 1)
        rw [getEntry_setEntry, if_pos rfl]
      · show enqueueJobInternal item s.queues item.type = pqPut item (s.queues item.type)
        unfold enqueueJobInternal
        rw [if_pos rfl]
      · intro t ht
        show enqueueJobInternal item s.queues t = s.queues t
        unfold enqueueJobInternal
        rw [if_neg ht]
    · rw [if_neg hip, if_pos hlt]
      refine ⟨?_, ?_, ?_, rfl, rfl, rfl⟩
      · show getEntry id (setEntry id ((getEntry id s.retries).getD 0 + 1) s.retries)
            = some ((getEntry id s.retries).getD 0 + 1)
        rw [getEntry_setEntry, if_pos rfl]
      · show enqueueJobInternal item s.queues item.type = pqPut item (s.queues item.type)
        unfold enqueueJobInternal
        rw [if_pos rfl]
      · intro t ht
        show enqueueJobInternal item s.queues t = s.queues t
        unfold enqueueJobInternal
        rw [if_neg ht]
  · intro hge
    rw [reportError_eq_present_retry mr id err s item hitem]
    by_cases hip : (getEntry id s.inProgress).isSome
    · rw [if_pos hip, if_neg hge]
      refine ⟨?_, ?_, rfl, rfl⟩
      · show getEntry id (setEntry id (.error err) s.resultsCache) = some (.error err)
        rw [getEntry_setEntry, if_pos rfl]
      · show getEntry id (setEntry id (.error err) s.dbResults) = some (.error err)
        rw [getEntry_setEntry, if_pos rfl]
    · rw [if_neg hip, if_neg hge]
      refine ⟨?_, ?_, rfl, rfl⟩
      · show getEntry id (setEntry id (.error err) s.resultsCache) = some (.error err)
        rw [getEntry_setEntry, if_pos rfl]
      · show getEntry id (setEntry id (.error err) s.dbResults) = some (.error err)
        rw [getEntry_setEntry, if_pos rfl]

/-- C5 witness: the retry branch of the theorem at a state where job 1 is
enqueued and leased with no failures recorded yet, max_retries 3. -/
theorem c5_retry_budget_witness :
    getEntry 1 (reportProvingJobError 3 1 "boom" true (runOps defaultConfig initialBroker
      [.enqueueOp ⟨1, .BASE_PARITY, 1, "p"⟩, .acquireOp none 0])).retries = some 1 :=
  ((c5_retry_budget 3 (runOps defaultConfig initialBroker
      [.enqueueOp ⟨1, .BASE_PARITY, 1, "p"⟩, .acquireOp none 0])
    1 "boom" ⟨1, .BASE_PARITY, 1, "p"⟩ (by decide)).1 (by decide)).1

/-- C7: at a sweeper pass, a lease whose job record is gone from the
JobIndex is dropped without re-queueing (queue counts for that id are
unchanged), and a lease whose heartbeat age reaches jobTimeoutMs is
dropped with its job pushed back onto its class queue; the retry counters
are never touched by the sweeper.  The closed conjuncts replay scenario
S3: after enqueue, acquire at time 0 and a sweep at jobTimeout + 1 the
same job is returned by a second acquire and its retry counter is still
absent (zero). -/
theorem c7_timeout_sweep (tmo now : Int) (s : BrokerState) (id : Nat)
    (md : InProgressMetadata)
    (hkeys : JobKeysOk s.jobsCache)
    (hnodup : (s.inProgress.map Prod.fst).Nodup)
    (hmem : (id, md) ∈ s.inProgress) :
    (timeoutCheck tmo now s).retries = s.retries ∧
    (getEntry id s.jobsCache = none →
      getEntry id (timeoutCheck tmo now s).inProgress = none ∧
      ∀ t, countId id ((timeoutCheck tmo now s).queues t) = countId id (s.queues t)) ∧
    (∀ item, getEntry id s.jobsCache = some item → tmo ≤ now - md.lastUpdatedAt →
      getEntry id (timeoutCheck tmo now s).inProgress = none ∧
      item ∈ (timeoutCheck tmo now s).queues item.type) ∧
    ((getProvingJob none 30001 (timeoutCheck 30000 30001
        (getProvingJob none 0
          (enqueueProvingJob ⟨1, .BASE_PARITY, 1, "p"⟩ initialBroker).2).2)).1
      = some ⟨1, .BASE_PARITY, 1, "p"⟩ ∧
     getEntry 1 (getProvingJob none 30001 (timeoutCheck 30000 30001
        (getProvingJob none 0
          (enqueueProvingJob ⟨1, .BASE_PARITY, 1, "p"⟩ initialBroker).2).2)).2.retries
      = none) := by
  obtain ⟨pre, post, hsplit⟩ := List.append_of_mem hmem
  have hnd2 : (pre.map Prod.fst ++ id :: post.map Prod.fst).Nodup := by
    have hcopy := hnodup
    rw [hsplit, List.map_append, List.map_cons] at hcopy
    exact hcopy
  rcases List.nodup_append.mp hnd2 with ⟨hnd_pre, hnd_mid, hdisj⟩
  have hpre : ∀ e ∈ pre, e.1 ≠ id := by
    intro e he hh
    refine hdisj ?_ (List.mem_cons_self id (post.map Prod.fst))
    rw [← hh]
    exact List.mem_map_of_mem Prod.fst he
  have hpost : ∀ e ∈ post, e.1 ≠ id := by
    intro e he hh
    rcases List.nodup_cons.mp hnd_mid with ⟨hnotin, _⟩
    refine hnotin ?_
    rw [← hh]
    exact List.mem_map_of_mem Prod.fst he
  have hrun : timeoutCheck tmo now s
      = post.foldl (sweepEntry tmo now)
          (sweepEntry tmo now (pre.foldl (sweepEntry tmo now) s) (id, md)) := by
    rw [timeoutCheck, hsplit, List.foldl_append, List.foldl_cons]
  have hPreJobs : (pre.foldl (sweepEntry tmo now) s).jobsCache = s.jobsCache :=
    (sweepFold_fixed tmo now pre s).1
  refine ⟨(sweepFold_fixed tmo now s.inProgress s).2.2.1, ?_, ?_, by decide, by decide⟩
  · intro hnone
    have hnone2 : getEntry (id, md).1 (pre.foldl (sweepEntry tmo now) s).jobsCache = none := by
      show getEntry id (pre.foldl (sweepEntry tmo now) s).jobsCache = none
      rw [hPreJobs]
      exact hnone
    have hmid := sweepEntry_eq_none tmo now (pre.foldl (sweepEntry tmo now) s) (id, md) hnone2
    constructor
    · rw [hrun]
      refine sweepFold_lease_none tmo now post id _ ?_
      rw [hmid]
      show getEntry id (delEntry id (pre.foldl (sweepEntry tmo now) s).inProgress) = none
      rw [getEntry_delEntry, if_pos rfl]
    · intro t
      rw [hrun]
      have hkeysMid : JobKeysOk (sweepEntry tmo now (pre.foldl (sweepEntry tmo now) s) (id, md)).jobsCache := by
        rw [(sweepEntry_fixed tmo now (pre.foldl (sweepEntry tmo now) s) (id, md)).1, hPreJobs]
        exact hkeys
      rw [sweepFold_count_fixed tmo now post id _ hkeysMid hpost t, hmid]
      show countId id ((pre.foldl (sweepEntry tmo now) s).queues t) = countId id (s.queues t)
      exact sweepFold_count_fixed tmo now pre id s hkeys hpre t
  · intro item hitem hstale
    have hitem2 : getEntry (id, md).1 (pre.foldl (sweepEntry tmo now) s).jobsCache = some item := by
      show getEntry id (pre.foldl (sweepEntry tmo now) s).jobsCache = some item
      rw [hPreJobs]
      exact hitem
    have hmid := sweepEntry_eq_stale tmo now (pre.foldl (sweepEntry tmo now) s) (id, md)
      item hitem2 hstale
    constructor
    · rw [hrun]
      refine sweepFold_lease_none tmo now post id _ ?_
      rw [hmid]
      show getEntry id (delEntry id (pre.foldl (sweepEntry tmo now) s).inProgress) = none
      rw [getEntry_delEntry, if_pos rfl]
    · rw [hrun]
      refine sweepFold_queue_mono tmo now post item.type item _ ?_
      rw [hmid]
      show item ∈ enqueueJobInternal item (pre.foldl (sweepEntry tmo now) s).queues item.type
      exact enqueueJobInternal_mem_self item (pre.foldl (sweepEntry tmo now) s).queues

/-- C7 witness: the stale branch of the theorem at the state reached by
enqueue then acquire at time 0, swept at time 30001 with a 30000 ms
timeout: the lease is gone and the job is back in its class queue. -/
theorem c7_timeout_sweep_witness :
    getEntry 1 (timeoutCheck 30000 30001 (runOps defaultConfig initialBroker
      [.enqueueOp ⟨1, .BASE_PARITY, 1, "p"⟩, .acquireOp none 0])).inProgress = none ∧
    (⟨1, .BASE_PARITY, 1, "p"⟩ : V2ProvingJob) ∈
      (timeoutCheck 30000 30001 (runOps defaultConfig initialBroker
        [.enqueueOp ⟨1, .BASE_PARITY, 1, "p"⟩, .acquireOp none 0])).queues .BASE_PARITY :=
  (c7_timeout_sweep 30000 30001
    (runOps defaultConfig initialBroker
      [.enqueueOp ⟨1, .BASE_PARITY, 1, "p"⟩, .acquireOp none 0])
    1 { id := 1, startedAt := 0, lastUpdatedAt := 0 }
    (by decide) (by decide) (by decide)).2.2.1
    ⟨1, .BASE_PARITY, 1, "p"⟩ (by decide) (by decide)

/-- C6: whenever getProvingJob returns a job from a well-formed state
(queues hold jobs of their own class, each queue sorted by block number),
the job belongs to an allowed class, sits at the head of its class queue,
its class has the least claim rank among the allowed classes with
non-empty queues (rank order BLOCK_ROOT_ROLLUP, BLOCK_MERGE_ROLLUP,
ROOT_ROLLUP, MERGE_ROLLUP, PUBLIC_BASE_ROLLUP, PRIVATE_BASE_ROLLUP,
PUBLIC_VM, TUBE_PROOF, ROOT_PARITY, BASE_PARITY,
EMPTY_BLOCK_ROOT_ROLLUP, PRIVATE_KERNEL_EMPTY), and it carries the
minimal block number in its queue.  The closed conjuncts replay scenario
S1 (rank beats epoch) and scenario S2 (epoch order within a class, both
dispatches). -/
theorem c6_dispatch_priority (filter : Option (List ProvingRequestType)) (now : Int)
    (s : BrokerState) (job : V2ProvingJob)
    (htyped : QueuesTyped s) (hsorted : QueuesSorted s)
    (hres : (getProvingJob filter now s).1 = some job) :
    job.type ∈ allowedOf filter ∧
    (s.queues job.type).head? = some job ∧
    (∀ u ∈ allowedOf filter, s.queues u ≠ [] → claimRank job.type ≤ claimRank u) ∧
    (∀ j2 ∈ s.queues job.type, job.blockNumber ≤ j2.blockNumber) ∧
    ((getProvingJob none 0
      (enqueueProvingJob ⟨2, .BLOCK_ROOT_ROLLUP, 9, "pb"⟩
        (enqueueProvingJob ⟨1, .PUBLIC_VM, 5, "pa"⟩ initialBroker).2).2).1
      = some ⟨2, .BLOCK_ROOT_ROLLUP, 9, "pb"⟩) ∧
    ((getProvingJob (some [.MERGE_ROLLUP]) 0
      (enqueueProvingJob ⟨2, .MERGE_ROLLUP, 3, "b"⟩
        (enqueueProvingJob ⟨1, .MERGE_ROLLUP, 7, "a"⟩ initialBroker).2).2).1
      = some ⟨2, .MERGE_ROLLUP, 3, "b"⟩) ∧
    ((getProvingJob (some [.MERGE_ROLLUP]) 0
      (getProvingJob (some [.MERGE_ROLLUP]) 0
        (enqueueProvingJob ⟨2, .MERGE_ROLLUP, 3, "b"⟩
          (enqueueProvingJob ⟨1, .MERGE_ROLLUP, 7, "a"⟩ initialBroker).2).2).2).1
      = some ⟨1, .MERGE_ROLLUP, 7, "a"⟩) := by
  have hres2 : (pickJob now s (sortProofTypes (allowedOf filter))).1 = some job := hres
  obtain ⟨r, s2, hps⟩ : ∃ r s2,
      pickJob now s (sortProofTypes (allowedOf filter)) = (r, s2) := ⟨_, _, rfl⟩
  have hr : r = some job := by
    rw [hps] at hres2
    exact hres2
  have heq : pickJob now s (sortProofTypes (allowedOf filter)) = (some job, s2) := by
    rw [hps, hr]
  obtain ⟨t, htmem, hhead, hmin⟩ := pickJob_first now s _ job s2
    (pairwise_sortProofTypes _) heq
  have hjm : job ∈ s.queues t := by
    cases hq : s.queues t with
    | nil => rw [hq] at hhead; simp at hhead
    | cons a b =>
      rw [hq] at hhead
      have ha : a = job := by simpa using hhead
      rw [← ha]
      exact List.mem_cons_self a b
  have hty : job.type = t := htyped t job hjm
  rw [← hty] at htmem hhead hmin
  refine ⟨(mem_sortProofTypes _ _).mp htmem, hhead, ?_, ?_, by decide, by decide, by decide⟩
  · intro u hu hne
    exact hmin u ((mem_sortProofTypes u _).mpr hu) hne
  · intro j2 hj2
    have hp := hsorted job.type
    cases hq : s.queues job.type with
    | nil => rw [hq] at hj2; simp at hj2
    | cons a tail =>
      rw [hq] at hhead
      have ha : a = job := by simpa using hhead
      rw [hq] at hj2 hp
      rcases List.mem_cons.mp hj2 with h2 | h2
      · rw [h2, ha]
      · have hle := (List.pairwise_cons.mp hp).1 j2 h2
        rw [ha] at hle
        exact hle

/-- C6 witness: the theorem applied to the scenario S2 state, showing the
returned job heads its class queue. -/
theorem c6_dispatch_priority_witness :
    ((enqueueProvingJob ⟨2, .MERGE_ROLLUP, 3, "b"⟩
        (enqueueProvingJob ⟨1, .MERGE_ROLLUP, 7, "a"⟩ initialBroker).2).2.queues
      (⟨2, .MERGE_ROLLUP, 3, "b"⟩ : V2ProvingJob).type).head?
      = some ⟨2, .MERGE_ROLLUP, 3, "b"⟩ :=
  (c6_dispatch_priority (some [.MERGE_ROLLUP]) 0
    (enqueueProvingJob ⟨2, .MERGE_ROLLUP, 3, "b"⟩
      (enqueueProvingJob ⟨1, .MERGE_ROLLUP, 7, "a"⟩ initialBroker).2).2
    ⟨2, .MERGE_ROLLUP, 3, "b"⟩ (by decide) (by decide) (by decide)).2.1

/-- C9: after start over a store enumeration with distinct job ids, every
enumerated job is in the JobIndex; a job enumerated with a result has
that result in the ResultIndex and is queued nowhere; a job without a
result sits in its class queue; and no job or result outside the
enumeration exists.  The closed conjuncts replay scenario S6: with
J1 settled successfully, J2 pending and J3 failed, status(J1) is
resolved, status(J3) is rejected and acquire yields J2. -/
theorem c9_startup_recovery (entries : List (V2ProvingJob × Option V2ProvingJobResult))
    (hnodup : (entries.map (fun e => e.1.id)).Nodup) :
    (∀ e ∈ entries,
      getEntry e.1.id (startBroker entries initialBroker).jobsCache = some e.1 ∧
      (∀ r, e.2 = some r →
        getEntry e.1.id (startBroker entries initialBroker).resultsCache = some r ∧
        totalQueued e.1.id (startBroker entries initialBroker) = 0) ∧
      (e.2 = none → e.1 ∈ (startBroker entries initialBroker).queues e.1.type)) ∧
    (∀ id, (getEntry id (startBroker entries initialBroker).jobsCache).isSome →
      ∃ e ∈ entries, e.1.id = id) ∧
    (∀ id, (getEntry id (startBroker entries initialBroker).resultsCache).isSome →
      ∃ e ∈ entries, e.1.id = id ∧ e.2.isSome) ∧
    (getProvingJobStatus 1 (startBroker
        [(⟨1, .BASE_PARITY, 1, "p1"⟩, some (.value "v")),
         (⟨2, .BASE_PARITY, 1, "p2"⟩, none),
         (⟨3, .BASE_PARITY, 1, "p3"⟩, some (.error "x"))] initialBroker)
      = .resolved "v" ∧
     getProvingJobStatus 3 (startBroker
        [(⟨1, .BASE_PARITY, 1, "p1"⟩, some (.value "v")),
         (⟨2, .BASE_PARITY, 1, "p2"⟩, none),
         (⟨3, .BASE_PARITY, 1, "p3"⟩, some (.error "x"))] initialBroker)
      = .rejected "x" ∧
     (getProvingJob none 0 (startBroker
        [(⟨1, .BASE_PARITY, 1, "p1"⟩, some (.value "v")),
         (⟨2, .BASE_PARITY, 1, "p2"⟩, none),
         (⟨3, .BASE_PARITY, 1, "p3"⟩, some (.error "x"))] initialBroker)).1
      = some ⟨2, .BASE_PARITY, 1, "p2"⟩) := by
  refine ⟨?_, ?_, ?_, by decide, by decide, by decide⟩
  · intro e he
    obtain ⟨pre, post, hsplit⟩ := List.append_of_mem he
    have hnd2 : (pre.map (fun e2 => e2.1.id) ++ e.1.id :: post.map (fun e2 => e2.1.id)).Nodup := by
      have hcopy := hnodup
      rw [hsplit, List.map_append, List.map_cons] at hcopy
      exact hcopy
    rcases List.nodup_append.mp hnd2 with ⟨hnd_pre, hnd_mid, hdisj⟩
    have hpre : ∀ e2 ∈ pre, e2.1.id ≠ e.1.id := by
      intro e2 he2 hh
      refine hdisj ?_ (List.mem_cons_self e.1.id (post.map (fun e2 => e2.1.id)))
      rw [← hh]
      exact List.mem_map_of_mem (fun e2 => e2.1.id) he2
    have hpost : ∀ e2 ∈ post, e2.1.id ≠ e.1.id := by
      intro e2 he2 hh
      rcases List.nodup_cons.mp hnd_mid with ⟨hnotin, _⟩
      refine hnotin ?_
      rw [← hh]
      exact List.mem_map_of_mem (fun e2 => e2.1.id) he2
    have hrun : startBroker entries initialBroker
        = startBroker post (restoreEntry (startBroker pre initialBroker) e) := by
      rw [startBroker, hsplit, List.foldl_append, List.foldl_cons]
      rfl
    refine ⟨?_, ?_, ?_⟩
    · rw [hrun, startBroker_jobs_untouched post e.1.id (restoreEntry (startBroker pre initialBroker) e) hpost]
      cases hr : e.2 with
      | some r =>
        rw [restoreEntry_eq_some (startBroker pre initialBroker) e r hr]
        show getEntry e.1.id (setEntry e.1.id e.1 (startBroker pre initialBroker).jobsCache) = some e.1
        rw [getEntry_setEntry, if_pos rfl]
      | none =>
        rw [restoreEntry_eq_none (startBroker pre initialBroker) e hr]
        show getEntry e.1.id (setEntry e.1.id e.1 (startBroker pre initialBroker).jobsCache) = some e.1
        rw [getEntry_setEntry, if_pos rfl]
    · intro r hr
      constructor
      · rw [hrun, startBroker_results_untouched post e.1.id (restoreEntry (startBroker pre initialBroker) e) hpost]
        rw [restoreEntry_eq_some (startBroker pre initialBroker) e r hr]
        show getEntry e.1.id (setEntry e.1.id r (startBroker pre initialBroker).resultsCache) = some r
        rw [getEntry_setEntry, if_pos rfl]
      · refine totalQueued_eq_zero ?_
        intro t
        rw [hrun, startBroker_count_nores post e.1.id (restoreEntry (startBroker pre initialBroker) e)
          (fun e2 he2 hh => absurd hh (hpost e2 he2)) t]
        rw [restoreEntry_eq_some (startBroker pre initialBroker) e r hr]
        show countId e.1.id ((startBroker pre initialBroker).queues t) = 0
        rw [startBroker_count_nores pre e.1.id initialBroker
          (fun e2 he2 hh => absurd hh (hpre e2 he2)) t]
        rfl
    · intro hr
      rw [hrun]
      refine startBroker_queue_mono post e.1.type e.1 (restoreEntry (startBroker pre initialBroker) e) ?_
      rw [restoreEntry_eq_none (startBroker pre initialBroker) e hr]
      show e.1 ∈ enqueueJobInternal e.1 (startBroker pre initialBroker).queues e.1.type
      exact enqueueJobInternal_mem_self e.1 (startBroker pre initialBroker).queues
  · intro id h
    rcases startBroker_jobs_domain entries id initialBroker h with h2 | h2
    · exact h2
    · exact absurd h2 (by simp [initialBroker, getEntry])
  · intro id h
    rcases startBroker_results_domain entries id initialBroker h with h2 | h2
    · exact h2
    · exact absurd h2 (by simp [initialBroker, getEntry])

/-- C9 witness: the theorem applied to the S6 enumeration, showing the
pending job J2 is queued in its class queue after recovery. -/
theorem c9_startup_recovery_witness :
    (⟨2, .BASE_PARITY, 1, "p2"⟩ : V2ProvingJob) ∈ (startBroker
        [(⟨1, .BASE_PARITY, 1, "p1"⟩, some (.value "v")),
         (⟨2, .BASE_PARITY, 1, "p2"⟩, none),
         (⟨3, .BASE_PARITY, 1, "p3"⟩, some (.error "x"))] initialBroker).queues
      (⟨2, .BASE_PARITY, 1, "p2"⟩ : V2ProvingJob).type :=
  ((c9_startup_recovery
      [(⟨1, .BASE_PARITY, 1, "p1"⟩, some (.value "v")),
       (⟨2, .BASE_PARITY, 1, "p2"⟩, none),
       (⟨3, .BASE_PARITY, 1, "p3"⟩, some (.error "x"))] (by decide)).1
    (⟨2, .BASE_PARITY, 1, "p2"⟩, none) (by decide)).2.2 rfl
